import Mathlib

/-!
Verification development for the `simplechrome` repository.

This file gives a shallow embedding, in Lean 4, of the state-manipulating
core of the repository (`frame_manager.py` and `chrome.py`) and proves
properties of that embedding.

Modelling conventions:
  * Python objects that are compared by identity (`Frame` instances held in
    `FrameManager._frames`) are modelled by references (`Nat`) into an
    explicit heap (an association list from references to record data), so
    object identity is the identity of the reference.
  * Python `dict` / `OrderedDict` registries are modelled as association
    lists with first-match lookup, in-place replacement on insert, and
    key-erasure on delete.
  * `asyncio` interleavings are modelled by splitting a coroutine at each
    `await` into explicit atomic phases (e.g. `WaitTask.rerun` becomes
    `rerunStart` / `rerunFinish`); remote protocol evaluation results are
    passed in as explicit outcome values.
  * Raised exceptions become `Except` results; event-emitter `emit` calls
    become entries appended to an explicit event log (listener side effects
    are not modelled).
-/

namespace SimpleChrome

/-! ## Association-list registries (model of Python dict / OrderedDict) -/

/-- First-match lookup in an association list (Python `d.get(k)` / `d[k]`). -/
def alookup {κ α : Type} [DecidableEq κ] : List (κ × α) → κ → Option α
  | [], _ => none
  | (k', v) :: rest, k => if k' = k then some v else alookup rest k

/-- Assignment `d[k] = v`: replace the (first) binding of `k` in place, or
append a fresh binding at the end, as a Python dict does. -/
def ainsert {κ α : Type} [DecidableEq κ] : List (κ × α) → κ → α → List (κ × α)
  | [], k, v => [(k, v)]
  | (k', v') :: rest, k, v =>
    if k' = k then (k, v) :: rest else (k', v') :: ainsert rest k v

/-- Deletion `d.pop(k, None)` / `del d[k]`: drop every binding of `k`
(a Python dict holds at most one). -/
def aerase {κ α : Type} [DecidableEq κ] : List (κ × α) → κ → List (κ × α)
  | [], _ => []
  | (k', v) :: rest, k =>
    if k' = k then aerase rest k else (k', v) :: aerase rest k

/-- In-place mutation of the value bound to `k` (Python attribute assignment
on the object found under `k`); no effect when `k` is unbound. -/
def aupdate {κ α : Type} [DecidableEq κ] : List (κ × α) → κ → (α → α) → List (κ × α)
  | [], _, _ => []
  | (k', v) :: rest, k, f =>
    if k' = k then (k, f v) :: rest else (k', v) :: aupdate rest k f

/-! ## Errors (`errors.py` classes used by the embedded code) -/

/-- The exception classes thrown / inspected by the embedded code.  The
payload is `args[0]`, the message string. -/
inductive WErr : Type where
  | networkError (msg : String)
  | pageError (msg : String)
  | waitTimeoutError (msg : String)
  | browserError (msg : String)
  | valueError (msg : String)
deriving DecidableEq

/-- Python `needle in hay` on strings: `needle` occurs as a contiguous
substring of `hay`.  Implemented directly on character lists. -/
def charsStartWith : List Char → List Char → Bool
  | [], _ => true
  | _ :: _, [] => false
  | a :: as, b :: bs => a == b && charsStartWith as bs

/-- Does `n` occur contiguously inside the second list? -/
def charsContain (n : List Char) : List Char → Bool
  | [] => n.isEmpty
  | c :: rest => charsStartWith n (c :: rest) || charsContain n rest

/-- Python `needle in hay` for strings. -/
def strContains (hay needle : String) : Bool :=
  charsContain needle.data hay.data

/-! ## WaitTask (`frame_manager.py`, class `WaitTask`)

The task's mutable attributes form `WaitTaskState`.  The `rerun` coroutine
has two kinds of suspension points: the evaluation awaits
(`frame.executionContext()` / `evaluateHandle`), and — only on the
successful-evaluation path — the falsiness probe
`await self._frame.evaluate("s => !s", success)`, which sits *between* the
supersession guard and the resolution, with no guard re-check after it.
`rerun` is therefore split into three atomic sections:
  * `rerunStart`: bumps and snapshots `_runCount`;
  * `rerunAfterEval`: the straight-line section after the evaluation
    awaits return — the `promise.done()` guard, the
    terminated/run-counter guard, and, for an error outcome, the
    retryable checks and the error resolution (no awaits on that path);
    a successful outcome instead suspends into the falsiness probe;
  * `rerunAfterProbe`: the resumption after the probe returns, which
    resolves the promise without re-checking any guard.
`rerunFinish` additionally models the completion under the extra
assumption that the probe returns with no interleaving; its error branch
coincides with `rerunAfterEval` and is the faithful model for the
retryable-race path. -/

/-- `self.promise`, a single-assignment future. -/
inductive PromiseState : Type where
  | pending
  | value (handle : Option Nat)
  | failed (e : WErr)
deriving DecidableEq

/-- The `polling` constructor argument: a `str`, an `int`/`float`
(modelled as `ℚ`), or a value of any other type. -/
inductive Polling : Type where
  | str (s : String)
  | num (q : ℚ)
  | other
deriving DecidableEq

/-- Mutable attributes of a `WaitTask` instance. -/
structure WaitTaskState : Type where
  polling : Polling
  timeout : ℚ
  runCount : Nat
  terminated : Bool
  timeoutError : Bool
  promise : PromiseState
  timerCancelled : Bool
  /-- membership of this task in `frame._waitTasks` -/
  inFrameSet : Bool
deriving DecidableEq

deriving instance DecidableEq for Except

/-- Result of `WaitTask.__init__`: either the `ValueError` raised by the
polling validation, or the constructed task state; plus the owning frame's
`_waitTasks` set (task ids) after construction and whether the timeout
timer coroutine was scheduled. -/
structure WaitTaskInit : Type where
  result : Except String WaitTaskState
  frameWaitTasks : List Nat
  timerArmed : Bool
deriving DecidableEq

/-- `WaitTask.__init__(frame, predicateBody, polling, timeout, *args)`.

The validation mirrors the source: a string must be `"raf"` or
`"mutation"`; a number must be strictly positive; any other value is
rejected.  Only after validation does the task add itself to
`frame._waitTasks` and schedule the timer and the first `rerun`; a
`ValueError` therefore leaves the frame's set untouched and arms nothing. -/
def WaitTask.construct (polling : Polling) (timeout : ℚ)
    (frameTasks : List Nat) (taskId : Nat) : WaitTaskInit :=
  match polling with
  | Polling.str s =>
    if s ≠ "raf" ∧ s ≠ "mutation" then
      ⟨Except.error ("Unknown polling: " ++ s), frameTasks, false⟩
    else
      ⟨Except.ok
        { polling := polling, timeout := timeout, runCount := 0,
          terminated := false, timeoutError := false,
          promise := PromiseState.pending, timerCancelled := false,
          inFrameSet := true },
        frameTasks ++ [taskId], true⟩
  | Polling.num q =>
    if q ≤ 0 then
      ⟨Except.error ("Cannot poll with non-positive interval: " ++ toString q),
        frameTasks, false⟩
    else
      ⟨Except.ok
        { polling := polling, timeout := timeout, runCount := 0,
          terminated := false, timeoutError := false,
          promise := PromiseState.pending, timerCancelled := false,
          inFrameSet := true },
        frameTasks ++ [taskId], true⟩
  | Polling.other =>
    ⟨Except.error "Unknown polling option", frameTasks, false⟩

/-- `WaitTask._cleanup`: cancel the timer unless it was the timer that
fired, and remove the task from its frame's wait-task set. -/
def WaitTask.cleanup (t : WaitTaskState) : WaitTaskState :=
  { t with
    timerCancelled := if t.timeoutError then t.timerCancelled else true,
    inFrameSet := false }

/-- `WaitTask.terminate(error)`: mark terminated, fail the promise if it is
still pending, and clean up. -/
def WaitTask.terminate (e : WErr) (t : WaitTaskState) : WaitTaskState :=
  let t1 := { t with terminated := true }
  let t2 :=
    if t1.promise = PromiseState.pending then { t1 with promise := PromiseState.failed e }
    else t1
  WaitTask.cleanup t2

/-- The body of the local `timer` coroutine in `WaitTask.__init__`, run when
`asyncio.sleep(timeout / 1000)` returns (which it does for every timeout
value, immediately when `timeout ≤ 0`): flag the timeout and terminate with
a `WaitTimeoutError`. -/
def WaitTask.timerFire (t : WaitTaskState) : WaitTaskState :=
  WaitTask.terminate
    (WErr.waitTimeoutError
      ("Waiting failed: timeout " ++ toString t.timeout ++ "ms exceeds."))
    { t with timeoutError := true }

/-- Outcome of the remote evaluation phase of one `rerun`:
`ok handle falsy` bundles the `evaluateHandle` result with the result of
the subsequent falsiness probe `frame.evaluate("s => !s", success)`;
`err e` is an exception caught by the `try`/`except` around the evaluation. -/
inductive EvalOutcome : Type where
  | ok (handle : Nat) (falsy : Bool)
  | err (e : WErr)
deriving DecidableEq

/-- Entry of `WaitTask.rerun`:
`runCount = self._runCount = self._runCount + 1` — returns the new state
and the run's snapshot of the counter. -/
def WaitTask.rerunStart (t : WaitTaskState) : WaitTaskState × Nat :=
  ({ t with runCount := t.runCount + 1 }, t.runCount + 1)

/-- Completion of `WaitTask.rerun` after the evaluation awaits, under the
extra assumption that the falsiness probe (whose result is bundled into
the `ok` outcome) returns with no interleaving:
  * `if self.promise.done(): return`;
  * `if self._terminated or runCount != self._runCount: return`
    (disposing the handle has no effect on the tracked state);
  * a falsy success is discarded: the task stays pending;
  * a `NetworkError` whose message contains `"Execution context was
    destroyed"` or `"Cannot find context with specified id"` returns
    without resolving and without cleanup;
  * otherwise the promise is resolved (exception or value) and
    `self._cleanup()` runs.
The error branch involves no await in the source, so for error outcomes
this function is the faithful atomic model (and agrees with
`rerunAfterEval` below); for successful outcomes the suspension-faithful
decomposition is `rerunAfterEval` / `rerunAfterProbe`. -/
def WaitTask.rerunFinish (snapshot : Nat) (outcome : EvalOutcome)
    (t : WaitTaskState) : WaitTaskState :=
  if t.promise ≠ PromiseState.pending then t
  else if t.terminated = true ∨ snapshot ≠ t.runCount then t
  else
    match outcome with
    | EvalOutcome.ok handle falsy =>
      if falsy then t
      else WaitTask.cleanup { t with promise := PromiseState.value (some handle) }
    | EvalOutcome.err e =>
      if (match e with
          | WErr.networkError m => strContains m "Execution context was destroyed"
          | _ => false) then t
      else if (match e with
          | WErr.networkError m => strContains m "Cannot find context with specified id"
          | _ => false) then t
      else WaitTask.cleanup { t with promise := PromiseState.failed e }

/-- Outcome of the evaluation awaits alone (`evaluateHandle` at
frame_manager.py:969-975), before any falsiness probe has run. -/
inductive EvalResult : Type where
  | ok (handle : Nat)
  | err (e : WErr)
deriving DecidableEq

/-- Where one `rerun` invocation stands after its first straight-line
section: either the coroutine returned (or resolved and returned), or it
is suspended inside the falsiness probe
`await self._frame.evaluate("s => !s", success)` for the given handle. -/
inductive RerunPhase : Type where
  | finished
  | probing (handle : Nat)
deriving DecidableEq

/-- The first atomic section of `WaitTask.rerun` after the evaluation
awaits return (frame_manager.py:979-1011), faithful to the suspension
structure of the source:
  * `if self.promise.done(): return`;
  * `if self._terminated or runCount != self._runCount: return`;
  * on a successful evaluation, `not error and success` holds and the
    coroutine suspends into the falsiness probe at line 987 — no state
    change yet, and no further guard will run after the probe;
  * on an error, the probe is short-circuited (`not error` is false), so
    the retryable checks and, failing those, the error resolution plus
    `_cleanup()` all run in this same atomic section. -/
def WaitTask.rerunAfterEval (snapshot : Nat) (outcome : EvalResult)
    (t : WaitTaskState) : WaitTaskState × RerunPhase :=
  if t.promise ≠ PromiseState.pending then (t, RerunPhase.finished)
  else if t.terminated = true ∨ snapshot ≠ t.runCount then (t, RerunPhase.finished)
  else
    match outcome with
    | EvalResult.ok handle => (t, RerunPhase.probing handle)
    | EvalResult.err e =>
      if (match e with
          | WErr.networkError m => strContains m "Execution context was destroyed"
          | _ => false) then (t, RerunPhase.finished)
      else if (match e with
          | WErr.networkError m => strContains m "Cannot find context with specified id"
          | _ => false) then (t, RerunPhase.finished)
      else (WaitTask.cleanup { t with promise := PromiseState.failed e },
        RerunPhase.finished)

/-- The resumption of `WaitTask.rerun` when the falsiness probe returns
(`falsy` is the probe's result), mirroring frame_manager.py:987-1011 for
the no-error path: a falsy success is disposed and the coroutine returns;
otherwise — with *no* guard re-checked — `self.promise.set_result(success)`
runs: it resolves a still-pending promise with this run's (possibly
stale) handle and then `_cleanup()` runs, while on an already-resolved
promise `set_result` raises `InvalidStateError` out of `rerun`, leaving
the task state untouched. -/
def WaitTask.rerunAfterProbe (handle : Nat) (falsy : Bool)
    (t : WaitTaskState) : Except String WaitTaskState :=
  if falsy then Except.ok t
  else if t.promise = PromiseState.pending then
    Except.ok (WaitTask.cleanup { t with promise := PromiseState.value (some handle) })
  else Except.error "InvalidStateError: invalid state"

/-- A freshly constructed pending task (the state `WaitTask.__init__`
builds for a valid polling argument), used as a concrete evaluation
input. -/
def freshTask : WaitTaskState :=
  { polling := Polling.str "raf", timeout := 30000, runCount := 0,
    terminated := false, timeoutError := false,
    promise := PromiseState.pending, timerCancelled := false,
    inFrameSet := true }

/-- Is an evaluation error one of the two retryable protocol races
absorbed by `rerun`? -/
def retryableError : WErr → Bool
  | WErr.networkError m =>
    strContains m "Execution context was destroyed" ||
      strContains m "Cannot find context with specified id"
  | _ => false

/-- Did the task resolve with a timeout error? -/
def resolvedWithTimeout (t : WaitTaskState) : Bool :=
  match t.promise with
  | PromiseState.failed (WErr.waitTimeoutError _) => true
  | _ => false

/-! ## Chrome / BrowserContext (`chrome.py`)

Only the state the claims depend on is tracked: the browser-context
registry `Chrome._contexts`, the target registry `Chrome._targets`, and
the protocol calls issued over the connection. -/

/-- Protocol requests sent through `self._connection.send(...)`. -/
inductive ProtoCall : Type where
  | disposeBrowserContext (browserContextId : String)
deriving DecidableEq

/-- The fields of a `targetInfo` payload the handlers read. -/
structure TargetInfo : Type where
  targetId : String
  browserContextId : Option String
  url : String
deriving DecidableEq

/-- A `Target` object as constructed by `Chrome._targetCreated`
(`target.py` itself is outside the embedded core; the handler only stores
the object it constructed from the payload and the resolved context). -/
structure TargetM : Type where
  info : TargetInfo
  /-- id of the owning `BrowserContext` (`none` for the default context) -/
  contextId : Option String
deriving DecidableEq

/-- A `BrowserContext` object: its `_id` and whether it is the very object
stored as `browser._defaultContext` (`self is self._browser._defaultContext`
is an identity test, so it is carried as a separate fact about the
object rather than derived from the id). -/
structure BrowserContextM : Type where
  id : Option String
  isDefaultObject : Bool
deriving DecidableEq

/-- `Chrome._disposeContext(contextId)`: when the id is not `None`, send
`Target.disposeBrowserContext` and delete the registry entry (`del`
raises `KeyError` when the id is unknown).  Returns the calls issued and
the updated `Chrome._contexts` registry. -/
def Chrome.disposeContext (contextId : Option String)
    (contexts : List (String × BrowserContextM)) :
    List ProtoCall × Except String (List (String × BrowserContextM)) :=
  match contextId with
  | none => ([], Except.ok contexts)
  | some cid =>
    ([ProtoCall.disposeBrowserContext cid],
      if (alookup contexts cid).isSome then Except.ok (aerase contexts cid)
      else Except.error ("KeyError: " ++ cid))

/-- `BrowserContext.close()`:
```
cntx = self._id
if self is self._browser._defaultContext:
    cntx = None
if cntx is not None:
    return
await self._browser._disposeContext(cntx)
```
Returns the protocol calls issued and the resulting `Chrome._contexts`. -/
def BrowserContext.close (ctx : BrowserContextM)
    (contexts : List (String × BrowserContextM)) :
    List ProtoCall × Except String (List (String × BrowserContextM)) :=
  let cntx := if ctx.isDefaultObject then none else ctx.id
  if cntx.isSome then ([], Except.ok contexts)
  else Chrome.disposeContext cntx contexts

/-- `Chrome._targetCreated(event)`: resolve the owning context, construct
the `Target`, raise `BrowserError` when the target id is already
registered, otherwise register the new target.  (The subsequent
`await target._initializedPromise` / event emission does not touch the
registry.)  On an exception the handler aborts and `self._targets` is
left as it was. -/
def Chrome.targetCreated (tinfo : TargetInfo)
    (contexts : List (String × BrowserContextM))
    (defaultContext : BrowserContextM)
    (targets : List (String × TargetM)) :
    Except String (List (String × TargetM)) :=
  let context :=
    match tinfo.browserContextId with
    | some b => match alookup contexts b with
      | some c => c
      | none => defaultContext
    | none => defaultContext
  let target : TargetM := { info := tinfo, contextId := context.id }
  if (alookup targets tinfo.targetId).isSome then
    Except.error "target should not exist before create."
  else
    Except.ok (ainsert targets tinfo.targetId target)

/-- The registry a raising handler leaves behind: an exception aborts the
handler, so the registry keeps its prior value. -/
def registryAfter {α : Type} (prior : α) : Except String α → α
  | Except.ok l => l
  | Except.error _ => prior

/-! ## FrameManager / Frame (`frame_manager.py`)

`Frame` objects are compared and stored by identity, so they live in an
explicit heap keyed by references (`Nat`); `FrameManager._frames` maps
frame-id strings to references.  Emitter listener side effects are not
modelled; each `emit` appends to an event log. -/

/-- Mutable attributes of a `Frame` instance that the embedded handlers
touch.  `contextSlot` models the default-execution-context binding
(`some cid` = bound, `none` = the pending-future state installed by
`_setDefaultContext(None)`); `waitTasks` models `_waitTasks` as a list of
task ids. -/
structure FrameData : Type where
  fid : String
  parent : Option Nat
  children : List Nat
  url : String
  fname : String
  navigations : List String
  detached : Bool
  contextSlot : Option Nat
  waitTasks : List Nat
deriving DecidableEq

/-- An `ExecutionContext` entry of `FrameManager._contextIdToContext`: the
two attributes `_removeContext` reads (`_frameId`, `_isDefault`). -/
structure CtxData : Type where
  frameId : Option String
  isDefault : Bool
deriving DecidableEq

/-- Events emitted by the manager (and the page-level same-document
navigation event). -/
inductive FMEvent : Type where
  | frameAttached (ref : Nat)
  | frameNavigated (ref : Nat)
  | frameDetached (ref : Nat) (fid : String)
  | navigatedWithinDoc (frameId : String) (url : String)
deriving DecidableEq

/-- State owned by one `FrameManager`. -/
structure FMState : Type where
  /-- `self._frames` : OrderedDict frame-id → Frame (reference) -/
  frames : List (String × Nat)
  /-- the object heap backing the Frame references -/
  heap : List (Nat × FrameData)
  /-- `self.mainFrame` -/
  mainFrame : Option Nat
  /-- allocator for fresh references -/
  nextRef : Nat
  /-- `self._contextIdToContext` -/
  contexts : List (Nat × CtxData)
  /-- log of emitted events -/
  events : List FMEvent
deriving DecidableEq

/-- The fields of a `frameNavigated` payload that the handlers read
(`framePayload.get("id", "")`, `.get("parentId")`, `.get("url", "")`,
`.get("name", "")`). -/
structure FramePayload : Type where
  id : String
  parentId : Option String
  url : String
  name : String
deriving DecidableEq

/-- Python truthiness of `framePayload.get("parentId")`: absent or the
empty string are falsy. -/
def truthyOptStr : Option String → Bool
  | none => false
  | some s => !(s == "")

/-- `FrameManager._onFrameAttached(frameId, parentFrameId)`: no-op when the
id is tracked; otherwise construct a `Frame` (whose `__init__` adds it to
its parent's `_childFrames`), register it, and emit FrameAttached. -/
def FrameManager.onFrameAttached (frameId parentFrameId : String)
    (st : FMState) : FMState :=
  if (alookup st.frames frameId).isSome then st
  else
    let parentRef := alookup st.frames parentFrameId
    let r := st.nextRef
    let d : FrameData :=
      { fid := frameId, parent := parentRef, children := [], url := "",
        fname := "", navigations := [], detached := false,
        contextSlot := none, waitTasks := [] }
    let heap1 := ainsert st.heap r d
    let heap2 :=
      match parentRef with
      | some p => aupdate heap1 p (fun pd => { pd with children := pd.children ++ [r] })
      | none => heap1
    { st with
      frames := ainsert st.frames frameId r, heap := heap2, nextRef := r + 1,
      events := st.events ++ [FMEvent.frameAttached r] }

/-- `Frame._detach()`: terminate every `WaitTask` in `_waitTasks` with a
"frame got detached" `PageError` (each termination's `_cleanup` removes
the task from the set, emptying it), set `_detached`, remove the frame
from its parent's `_childFrames`, and clear `_parentFrame`.  The
frame-local `emit` calls only notify listeners and are not modelled. -/
def frameDetachStep (r : Nat) (st : FMState) : FMState :=
  match alookup st.heap r with
  | none => st
  | some d =>
    let heap1 := aupdate st.heap r
      (fun d0 => { d0 with detached := true, waitTasks := [] })
    let heap2 :=
      match d.parent with
      | some p => aupdate heap1 p
          (fun pd => { pd with children := pd.children.filter (fun c => c != r) })
      | none => heap1
    let heap3 := aupdate heap2 r (fun d0 => { d0 with parent := none })
    { st with heap := heap3 }

/-- `FrameManager._removeFramesRecursively(frame)`: recursively remove the
children (snapshot of `frame.childFrames` taken at entry), detach the
frame, evict its (current) id from `self._frames`, and emit FrameDetached.
The recursion is driven by `fuel`, an upper bound on the tree depth; the
Python recursion terminates because the child graph is a finite tree. -/
def removeFramesRecursively : Nat → Nat → FMState → FMState
  | 0, _, st => st
  | Nat.succ fuel, r, st =>
    match alookup st.heap r with
    | none => st
    | some d =>
      let st1 := d.children.foldl (fun s c => removeFramesRecursively fuel c s) st
      let st2 := frameDetachStep r st1
      let fid :=
        match alookup st2.heap r with
        | some d2 => d2.fid
        | none => d.fid
      let st3 :=
        if (alookup st2.frames fid).isSome then
          { st2 with frames := aerase st2.frames fid }
        else st2
      { st3 with events := st3.events ++ [FMEvent.frameDetached r fid] }

/-- `FrameManager._onFrameDetached(frameId)`. -/
def FrameManager.onFrameDetached (fuel : Nat) (frameId : String)
    (st : FMState) : FMState :=
  match alookup st.frames frameId with
  | some r => removeFramesRecursively fuel r st
  | none => st

/-- `Frame._navigated(framePayload)`: set `_name` and `_url` from the
payload and append the new url to `navigations` (the `_emits_life`
guarded emit only notifies listeners). -/
def frameNavigatedStep (r : Nat) (p : FramePayload) (st : FMState) : FMState :=
  let upd := fun (d : FrameData) =>
    { d with fname := p.name, url := p.url, navigations := d.navigations ++ [p.url] }
  { st with heap := aupdate st.heap r upd }

/-- `FrameManager._onFrameNavigated(framePayload)`. -/
def FrameManager.onFrameNavigated (fuel : Nat) (p : FramePayload)
    (st : FMState) : Except String FMState :=
  let isMainFrame := !truthyOptStr p.parentId
  let frame := if isMainFrame then st.mainFrame else alookup st.frames p.id
  if !(isMainFrame || frame.isSome) then
    Except.error
      "We either navigate top level or have old version of the navigated frame"
  else
    let st1 :=
      match frame with
      | some r =>
        (match alookup st.heap r with
         | some d => d.children
         | none => []).foldl (fun s c => removeFramesRecursively fuel c s) st
      | none => st
    let updated : FMState × Nat :=
      if isMainFrame then
        match frame with
        | some r =>
          let oldId :=
            match alookup st1.heap r with
            | some d => d.fid
            | none => ""
          ({ st1 with
             frames := ainsert (aerase st1.frames oldId) p.id r,
             heap := aupdate st1.heap r (fun d => { d with fid := p.id }),
             mainFrame := some r }, r)
        | none =>
          let r := st1.nextRef
          let d : FrameData :=
            { fid := p.id, parent := none, children := [], url := "",
              fname := "", navigations := [], detached := false,
              contextSlot := none, waitTasks := [] }
          ({ st1 with
             heap := ainsert st1.heap r d, nextRef := r + 1,
             frames := ainsert st1.frames p.id r, mainFrame := some r }, r)
      else
        match frame with
        | some r => (st1, r)
        | none => (st1, 0)
    let st3 := frameNavigatedStep updated.2 p updated.1
    Except.ok { st3 with events := st3.events ++ [FMEvent.frameNavigated updated.2] }

/-- `Frame._navigatedWithinDocument(url)`. -/
def frameNavigatedWithinDocumentStep (r : Nat) (url : String)
    (st : FMState) : FMState :=
  let heap1 := aupdate st.heap r
    (fun d => { d with url := url, navigations := d.navigations ++ [url] })
  { st with heap := heap1 }

/-- `FrameManager._onNavigatedWithinDocument(event)`: the source looks the
frame up, has a vacuous `if frame is not None: pass` guard, and then
dereferences the lookup result unconditionally — a missing frame raises
`AttributeError` (modelled as the error case) before any state is
touched.  On a tracked frame it updates the frame and emits the page's
NavigatedWithinDoc event. -/
def FrameManager.onNavigatedWithinDocument (frameId url : String)
    (st : FMState) : Except String FMState :=
  match alookup st.frames frameId with
  | none =>
    Except.error "AttributeError: NoneType object has no attribute"
  | some r =>
    let st1 := frameNavigatedWithinDocumentStep r url st
    Except.ok { st1 with
      events := st1.events ++ [FMEvent.navigatedWithinDoc frameId url] }

/-- `FrameManager._removeContext(context)`: resolve the owning frame
(`self._frames[context._frameId]`, raising `KeyError` when absent, guarded
by the truthiness of `_frameId`), and when the context was the frame's
default, reset the frame's default-context slot to pending
(`frame._setDefaultContext(None)`). -/
def FrameManager.removeContext (ctx : CtxData) (st : FMState) :
    Except String FMState :=
  if truthyOptStr ctx.frameId then
    match alookup st.frames (ctx.frameId.getD "") with
    | none => Except.error "KeyError: missing frame for context"
    | some r =>
      if ctx.isDefault then
        let heap1 := aupdate st.heap r (fun d => { d with contextSlot := none })
        Except.ok { st with heap := heap1 }
      else Except.ok st
  else Except.ok st

/-- `FrameManager._onExecutionContextDestroyed(executionContextId)`: a
lookup miss returns immediately; otherwise the context is dropped from
the registry and `_removeContext` runs. -/
def FrameManager.onExecutionContextDestroyed (cid : Nat) (st : FMState) :
    Except String FMState :=
  match alookup st.contexts cid with
  | none => Except.ok st
  | some ctx =>
    FrameManager.removeContext ctx { st with contexts := aerase st.contexts cid }

/-! ## Abstract frame forests

`FrameF` describes a forest of frames (sibling-encoded rose trees) used to
state what shape the heap's parent/child structure has below a given
frame.  All functions are plain structural recursions, so they evaluate
by `decide` on concrete inputs. -/

/-- A forest of frames: `cons ref fid kids sibs` is a tree whose root is
the frame object `ref` (with frame id `fid`) and children forest `kids`,
followed by the sibling forest `sibs`. -/
inductive FrameF : Type where
  | nil : FrameF
  | cons (ref : Nat) (fid : String) (kids : FrameF) (sibs : FrameF) : FrameF
deriving DecidableEq

/-- Number of frames in the forest. -/
def FrameF.sizeF : FrameF → Nat
  | FrameF.nil => 0
  | FrameF.cons _ _ kids sibs => 1 + kids.sizeF + sibs.sizeF

/-- Depth of the forest (height of its tallest tree). -/
def FrameF.depthF : FrameF → Nat
  | FrameF.nil => 0
  | FrameF.cons _ _ kids sibs => max (1 + kids.depthF) sibs.depthF

/-- All frame references of the forest, in preorder. -/
def FrameF.refsF : FrameF → List Nat
  | FrameF.nil => []
  | FrameF.cons r _ kids sibs => r :: (kids.refsF ++ sibs.refsF)

/-- References of the roots of the forest. -/
def FrameF.rootsF : FrameF → List Nat
  | FrameF.nil => []
  | FrameF.cons r _ _ sibs => r :: sibs.rootsF

/-- Depth-first post-order traversal, (reference, frame id) per frame:
each tree's children come before the tree's own root, trees in sibling
order. -/
def FrameF.postF : FrameF → List (Nat × String)
  | FrameF.nil => []
  | FrameF.cons r i kids sibs => kids.postF ++ (r, i) :: sibs.postF

/-- The frame ids of the forest in post-order. -/
def FrameF.idsF (f : FrameF) : List String :=
  (FrameF.postF f).map (fun pr => pr.2)

/-- The references of the forest in post-order. -/
def FrameF.postRefsF (f : FrameF) : List Nat :=
  (FrameF.postF f).map (fun pr => pr.1)

/-- All (parent reference, child reference) pairs of the forest. -/
def FrameF.parentChildF : FrameF → List (Nat × Nat)
  | FrameF.nil => []
  | FrameF.cons r _ kids sibs =>
    kids.rootsF.map (fun c => (r, c)) ++ (kids.parentChildF ++ sibs.parentChildF)

/-- Does the heap realize the forest `f` as the children structure below
parent `p`?  Every root of `f` must be a live heap entry whose `fid`,
`children` and `parent` (pointing back at `p`) match the forest, and its
children forest must be realized below it in turn. -/
def shapeChildren (heap : List (Nat × FrameData)) (p : Nat) : FrameF → Bool
  | FrameF.nil => true
  | FrameF.cons r i kids sibs =>
    match alookup heap r with
    | none => false
    | some d =>
      d.fid == i && d.parent == some p && d.children == kids.rootsF &&
        shapeChildren heap r kids && shapeChildren heap p sibs

/-- Does the heap realize the single tree `t` (root with arbitrary
parent pointer, children realized below it)? -/
def treeShape (heap : List (Nat × FrameData)) : FrameF → Bool
  | FrameF.cons r i kids FrameF.nil =>
    (match alookup heap r with
     | none => false
     | some d =>
       d.fid == i && d.children == kids.rootsF && shapeChildren heap r kids)
  | _ => false

/-- The manager-level FrameDetached events emitted for the frames of a
forest, in depth-first post-order. -/
def removalEvents (f : FrameF) : List FMEvent :=
  f.postF.map (fun pr => FMEvent.frameDetached pr.1 pr.2)

/-- Drop the given references from a frame's child set. -/
def dropChildren (roots : List Nat) (dd : FrameData) : FrameData :=
  { dd with children := dd.children.filter (fun c => decide (¬ c ∈ roots)) }

/-- Sequentially erase a list of keys from a registry. -/
def eraseKeys {α : Type} : List (String × α) → List String → List (String × α)
  | l, [] => l
  | l, i :: is => eraseKeys (aerase l i) is

/-- First index of an element in a list of references (length when
absent). -/
def idxOfRef : List Nat → Nat → Nat
  | [], _ => 0
  | r :: rest, x => if r = x then 0 else idxOfRef rest x + 1

/-- A sample main-frame object used as a concrete evaluation input. -/
def sampleFrameA : FrameData :=
  { fid := "A", parent := none, children := [], url := "u", fname := "",
    navigations := ["u"], detached := false, contextSlot := some 3,
    waitTasks := [9] }

/-- A one-frame manager state ("A" as main frame, one live default
context, one registered wait task) used as a concrete evaluation input. -/
def sampleState : FMState :=
  { frames := [("A", 0)],
    heap := [(0, sampleFrameA)],
    mainFrame := some 0, nextRef := 1,
    contexts := [(3, { frameId := some "A", isDefault := true })],
    events := [] }

/-- A sample children forest below reference 0: frame 1 "B" (with child
3 "D") and frame 2 "C". -/
def sampleKids : FrameF :=
  FrameF.cons 1 "B" (FrameF.cons 3 "D" FrameF.nil FrameF.nil)
    (FrameF.cons 2 "C" FrameF.nil FrameF.nil)

/-- A four-frame manager state realizing the tree
"A"(0) → ["B"(1) → ["D"(3)], "C"(2)], used as a concrete evaluation
input. -/
def sampleTreeState : FMState :=
  { frames := [("A", 0), ("B", 1), ("C", 2), ("D", 3)],
    heap :=
      [(0,
        { fid := "A", parent := none, children := [1, 2], url := "", fname := "",
          navigations := [], detached := false, contextSlot := none,
          waitTasks := [] }),
       (1,
        { fid := "B", parent := some 0, children := [3], url := "", fname := "",
          navigations := [], detached := false, contextSlot := none,
          waitTasks := [] }),
       (2,
        { fid := "C", parent := some 0, children := [], url := "", fname := "",
          navigations := [], detached := false, contextSlot := none,
          waitTasks := [] }),
       (3,
        { fid := "D", parent := some 1, children := [], url := "", fname := "",
          navigations := [], detached := false, contextSlot := none,
          waitTasks := [] })],
    mainFrame := some 0, nextRef := 4, contexts := [], events := [] }

/-- A sample registered target used as a concrete evaluation input. -/
def sampleTarget : TargetM :=
  { info := { targetId := "T1", browserContextId := none, url := "about:blank" },
    contextId := none }

/-- The parts of the manager state that frame removal can never touch:
`mainFrame`, the context registry, the allocator, and the frame id stored
in every heap entry (removal flips `detached`, clears parents, filters
children and evicts registry keys, but never rewrites an object's
`_id`). -/
def coreAgrees (stNew stOld : FMState) : Prop :=
  stNew.mainFrame = stOld.mainFrame ∧
    stNew.contexts = stOld.contexts ∧
    stNew.nextRef = stOld.nextRef ∧
    ∀ x, (alookup stNew.heap x).map FrameData.fid =
      (alookup stOld.heap x).map FrameData.fid

/-! ## Lemmas about the registry operations -/

@[simp] theorem alookup_nil {κ α : Type} [DecidableEq κ] (k : κ) :
    alookup ([] : List (κ × α)) k = none := rfl

theorem alookup_cons {κ α : Type} [DecidableEq κ] (k' k : κ) (v : α) (l : List (κ × α)) :
    alookup ((k', v) :: l) k = if k' = k then some v else alookup l k := rfl

@[simp] theorem alookup_ainsert_self {κ α : Type} [DecidableEq κ]
    (l : List (κ × α)) (k : κ) (v : α) : alookup (ainsert l k v) k = some v := by
  induction l with
  | nil => simp [ainsert, alookup]
  | cons hd tl ih =>
    obtain ⟨k', v'⟩ := hd
    by_cases h : k' = k <;> simp [ainsert, alookup, h, ih]

theorem alookup_ainsert_ne {κ α : Type} [DecidableEq κ]
    (l : List (κ × α)) (k k₀ : κ) (v : α) (h : k₀ ≠ k) :
    alookup (ainsert l k v) k₀ = alookup l k₀ := by
  induction l with
  | nil => simp [ainsert, alookup, Ne.symm h]
  | cons hd tl ih =>
    obtain ⟨k', v'⟩ := hd
    by_cases hk : k' = k
    · subst hk
      simp [ainsert, alookup, Ne.symm h]
    · simp [ainsert, alookup, hk, ih]

@[simp] theorem alookup_aerase_self {κ α : Type} [DecidableEq κ]
    (l : List (κ × α)) (k : κ) : alookup (aerase l k) k = none := by
  induction l with
  | nil => simp [aerase]
  | cons hd tl ih =>
    obtain ⟨k', v'⟩ := hd
    by_cases h : k' = k <;> simp [aerase, alookup, h, ih]

theorem alookup_aerase_ne {κ α : Type} [DecidableEq κ]
    (l : List (κ × α)) (k k₀ : κ) (h : k₀ ≠ k) :
    alookup (aerase l k) k₀ = alookup l k₀ := by
  induction l with
  | nil => simp [aerase]
  | cons hd tl ih =>
    obtain ⟨k', v'⟩ := hd
    by_cases hk : k' = k
    · subst hk
      simp [aerase, alookup, Ne.symm h, ih]
    · simp [aerase, alookup, hk, ih]

theorem aerase_of_alookup_none {κ α : Type} [DecidableEq κ]
    (l : List (κ × α)) (k : κ) (h : alookup l k = none) : aerase l k = l := by
  induction l with
  | nil => simp [aerase]
  | cons hd tl ih =>
    obtain ⟨k', v'⟩ := hd
    by_cases hk : k' = k
    · simp [alookup, hk] at h
    · simp [alookup, hk] at h
      simp [aerase, hk, ih h]

@[simp] theorem alookup_aupdate_self {κ α : Type} [DecidableEq κ]
    (l : List (κ × α)) (k : κ) (f : α → α) :
    alookup (aupdate l k f) k = (alookup l k).map f := by
  induction l with
  | nil => simp [aupdate]
  | cons hd tl ih =>
    obtain ⟨k', v'⟩ := hd
    by_cases h : k' = k <;> simp [aupdate, alookup, h, ih]

theorem alookup_aupdate_ne {κ α : Type} [DecidableEq κ]
    (l : List (κ × α)) (k k₀ : κ) (f : α → α) (h : k₀ ≠ k) :
    alookup (aupdate l k f) k₀ = alookup l k₀ := by
  induction l with
  | nil => simp [aupdate]
  | cons hd tl ih =>
    obtain ⟨k', v'⟩ := hd
    by_cases hk : k' = k
    · subst hk
      simp [aupdate, alookup, Ne.symm h]
    · simp [aupdate, alookup, hk, ih]

theorem eraseKeys_append {α : Type} (l : List (String × α)) (is₁ is₂ : List String) :
    eraseKeys l (is₁ ++ is₂) = eraseKeys (eraseKeys l is₁) is₂ := by
  induction is₁ generalizing l with
  | nil => simp [eraseKeys]
  | cons i rest ih => simp [eraseKeys, ih]

theorem alookup_eraseKeys_of_none {α : Type} (l : List (String × α))
    (is : List String) (k : String) (h : alookup l k = none) :
    alookup (eraseKeys l is) k = none := by
  induction is generalizing l with
  | nil => simpa [eraseKeys] using h
  | cons i rest ih =>
    simp only [eraseKeys]
    apply ih
    by_cases hk : k = i
    · subst hk
      simp
    · rw [alookup_aerase_ne l i k hk]
      exact h

theorem alookup_eraseKeys_of_mem {α : Type} (l : List (String × α))
    (is : List String) (k : String) (h : k ∈ is) :
    alookup (eraseKeys l is) k = none := by
  induction is generalizing l with
  | nil => cases h
  | cons i rest ih =>
    simp only [eraseKeys]
    rcases List.mem_cons.mp h with h1 | h2
    · subst h1
      exact alookup_eraseKeys_of_none _ _ _ (by simp)
    · exact ih _ h2

theorem alookup_eraseKeys_of_not_mem {α : Type} (l : List (String × α))
    (is : List String) (k : String) (h : ¬ k ∈ is) :
    alookup (eraseKeys l is) k = alookup l k := by
  induction is generalizing l with
  | nil => simp [eraseKeys]
  | cons i rest ih =>
    simp only [eraseKeys]
    have hki : k ≠ i := fun hc => h (by simp [hc])
    rw [ih _ (fun hc => h (by simp [hc])), alookup_aerase_ne l i k hki]

/-! ## WaitTask claims -/

/-- Counterexample to C3 as stated: a concrete interleaving in which a
superseded rerun resolves the promise.  Rerun 1 starts on a fresh task
(snapshot 1), its evaluation succeeds, it passes both guards and suspends
into the falsiness probe; during the probe rerun 2 starts, bumping the
live counter to 2; the probe then reports the value truthy and rerun 1 —
its snapshot 1 no longer equal to the live counter 2 — still resolves the
promise with its stale handle, contradicting "an earlier (superseded)
rerun that completes after a later rerun has started exits without
setting the outcome". -/
theorem waitTask_superseded_rerun_still_resolves :
    (WaitTask.rerunStart freshTask).2 = 1 ∧
      WaitTask.rerunAfterEval 1 (EvalResult.ok 7)
          (WaitTask.rerunStart freshTask).1 =
        ((WaitTask.rerunStart freshTask).1, RerunPhase.probing 7) ∧
      ((WaitTask.rerunStart (WaitTask.rerunStart freshTask).1).1).runCount = 2 ∧
      (1 : Nat) ≠
        ((WaitTask.rerunStart (WaitTask.rerunStart freshTask).1).1).runCount ∧
      (registryAfter ((WaitTask.rerunStart (WaitTask.rerunStart freshTask).1).1)
          (WaitTask.rerunAfterProbe 7 false
            ((WaitTask.rerunStart (WaitTask.rerunStart freshTask).1).1))).promise =
        PromiseState.value (some 7) := by
  refine ⟨rfl, ?_, rfl, by decide, rfl⟩
  rfl

/-- Claim C3 (amended): the run-counter supersession rule is enforced at
a single guard point, directly after the evaluation awaits: there, a
rerun whose snapshot differs from the live counter, or that finds the
promise already resolved or the task terminated, exits without touching
the task (first conjunct), and every later `rerunStart` bumps the live
counter strictly past every earlier snapshot (second and third
conjuncts).  The falsiness probe that follows the guard is itself an
await and is not re-guarded: a rerun that passed the guard and was
superseded during the probe still resolves a still-pending promise with
its stale handle (fourth conjunct), and `set_result` raises
`InvalidStateError` if the task resolved during the probe (fifth
conjunct, the raise leaving the task unchanged). -/
theorem waitTask_rerun_guard_once (t : WaitTaskState) (snapshot : Nat)
    (outcome : EvalResult) (handle : Nat)
    (hsup : snapshot ≠ t.runCount ∨ t.promise ≠ PromiseState.pending ∨
      t.terminated = true) :
    WaitTask.rerunAfterEval snapshot outcome t = (t, RerunPhase.finished) ∧
      (WaitTask.rerunStart t).2 = t.runCount + 1 ∧
      ((WaitTask.rerunStart t).1).runCount = t.runCount + 1 ∧
      (t.promise = PromiseState.pending →
        WaitTask.rerunAfterProbe handle false t =
          Except.ok (WaitTask.cleanup
            { t with promise := PromiseState.value (some handle) })) ∧
      (t.promise ≠ PromiseState.pending →
        WaitTask.rerunAfterProbe handle false t =
          Except.error "InvalidStateError: invalid state") := by
  refine ⟨?_, rfl, rfl, ?_, ?_⟩
  · unfold WaitTask.rerunAfterEval
    rcases hsup with h | h | h
    · by_cases hp : t.promise = PromiseState.pending
      · have hg : t.terminated = true ∨ snapshot ≠ t.runCount := Or.inr h
        simp [hp, hg]
      · simp [hp]
    · simp [h]
    · by_cases hp : t.promise = PromiseState.pending
      · have hg : t.terminated = true ∨ snapshot ≠ t.runCount := Or.inl h
        simp [hp, hg]
      · simp [hp]
  · intro hp
    simp [WaitTask.rerunAfterProbe, hp]
  · intro hp
    simp [WaitTask.rerunAfterProbe, hp]

/-- Witness for C3's amended statement: a pending task at live counter 2
versus a rerun with stale snapshot 1 (guard exits), and the unguarded
probe resolution on the same pending task. -/
theorem waitTask_rerun_guard_once_witness :
    ((1 : Nat) ≠ ({ freshTask with runCount := 2 } : WaitTaskState).runCount ∨
        ({ freshTask with runCount := 2 } : WaitTaskState).promise ≠
          PromiseState.pending ∨
        ({ freshTask with runCount := 2 } : WaitTaskState).terminated = true) ∧
      (WaitTask.rerunAfterEval 1 (EvalResult.ok 9)
          { freshTask with runCount := 2 } =
          ({ freshTask with runCount := 2 }, RerunPhase.finished) ∧
        (WaitTask.rerunStart { freshTask with runCount := 2 }).2 =
          ({ freshTask with runCount := 2 } : WaitTaskState).runCount + 1 ∧
        ((WaitTask.rerunStart { freshTask with runCount := 2 }).1).runCount =
          ({ freshTask with runCount := 2 } : WaitTaskState).runCount + 1 ∧
        (({ freshTask with runCount := 2 } : WaitTaskState).promise =
            PromiseState.pending →
          WaitTask.rerunAfterProbe 9 false { freshTask with runCount := 2 } =
            Except.ok (WaitTask.cleanup
              { { freshTask with runCount := 2 } with
                promise := PromiseState.value (some 9) })) ∧
        (({ freshTask with runCount := 2 } : WaitTaskState).promise ≠
            PromiseState.pending →
          WaitTask.rerunAfterProbe 9 false { freshTask with runCount := 2 } =
            Except.error "InvalidStateError: invalid state")) :=
  ⟨Or.inl (by decide),
    waitTask_rerun_guard_once { freshTask with runCount := 2 } 1
      (EvalResult.ok 9) 9 (Or.inl (by decide))⟩

/-- Claim C4: a rerun whose remote evaluation failed with a retryable
protocol race (`NetworkError` mentioning a destroyed execution context or
an unknown context id) exits without resolving the promise, without
raising, and without running `_cleanup` — the whole task state, including
its membership in the frame's wait-task set, is unchanged. -/
theorem waitTask_rerun_retryable_absorbed (t : WaitTaskState) (snapshot : Nat)
    (e : WErr) (h : retryableError e = true) :
    WaitTask.rerunFinish snapshot (EvalOutcome.err e) t = t := by
  unfold WaitTask.rerunFinish
  by_cases hp : t.promise = PromiseState.pending
  · by_cases hterm : t.terminated = true ∨ snapshot ≠ t.runCount
    · simp [hp, hterm]
    · cases e with
      | networkError m =>
        simp only [retryableError, Bool.or_eq_true] at h
        by_cases hc1 : strContains m "Execution context was destroyed" = true
        · simp [hp, hterm, hc1]
        · have hc2 : strContains m "Cannot find context with specified id" = true := by
            rcases h with h1 | h2
            · exact absurd h1 hc1
            · exact h2
          simp [hp, hterm, hc1, hc2]
      | pageError m => simp [retryableError] at h
      | waitTimeoutError m => simp [retryableError] at h
      | browserError m => simp [retryableError] at h
      | valueError m => simp [retryableError] at h
  · simp [hp]

/-- Witness for C4: a pending, current (snapshot = live counter) rerun
hitting "Execution context was destroyed" leaves the task registered and
pending. -/
theorem waitTask_rerun_retryable_absorbed_witness :
    retryableError (WErr.networkError
        "Protocol error (Runtime.callFunctionOn): Execution context was destroyed.") =
        true ∧
      (WaitTask.rerunFinish 1
          (EvalOutcome.err (WErr.networkError
            "Protocol error (Runtime.callFunctionOn): Execution context was destroyed."))
          { polling := Polling.str "raf", timeout := 30000, runCount := 1,
            terminated := false, timeoutError := false,
            promise := PromiseState.pending, timerCancelled := false,
            inFrameSet := true } =
        { polling := Polling.str "raf", timeout := 30000, runCount := 1,
          terminated := false, timeoutError := false,
          promise := PromiseState.pending, timerCancelled := false,
          inFrameSet := true }) :=
  ⟨by decide, waitTask_rerun_retryable_absorbed _ 1 _ (by decide)⟩

/-- Claim C8: `WaitTask.__init__` accepts exactly the polling values
`"raf"`, `"mutation"`, and strictly positive numbers; every other value
raises `ValueError`, and on failure the frame's wait-task set is left
untouched (registration happens only after validation). -/
theorem waitTask_polling_validation (p : Polling) (timeout : ℚ)
    (frameTasks : List Nat) (taskId : Nat) :
    ((WaitTask.construct p timeout frameTasks taskId).result.isOk = true ↔
        p = Polling.str "raf" ∨ p = Polling.str "mutation" ∨
          ∃ q, p = Polling.num q ∧ 0 < q) ∧
      ((WaitTask.construct p timeout frameTasks taskId).result.isOk = false →
        (WaitTask.construct p timeout frameTasks taskId).frameWaitTasks = frameTasks) ∧
      ((WaitTask.construct p timeout frameTasks taskId).result.isOk = true →
        (WaitTask.construct p timeout frameTasks taskId).frameWaitTasks =
          frameTasks ++ [taskId]) := by
  cases p with
  | str s =>
    by_cases hr : s = "raf"
    · subst hr
      refine ⟨?_, ?_, ?_⟩ <;> simp [WaitTask.construct, Except.isOk, Except.toBool]
    · by_cases hm : s = "mutation"
      · subst hm
        refine ⟨?_, ?_, ?_⟩ <;> simp [WaitTask.construct, Except.isOk, Except.toBool]
      · have hcond : s ≠ "raf" ∧ s ≠ "mutation" := ⟨hr, hm⟩
        refine ⟨?_, ?_, ?_⟩ <;>
          simp [WaitTask.construct, hcond, Except.isOk, Except.toBool, hr, hm]
  | num q =>
    by_cases hq : q ≤ 0
    · have : ¬ (0 : ℚ) < q := not_lt.mpr hq
      refine ⟨?_, ?_, ?_⟩ <;>
        simp [WaitTask.construct, hq, Except.isOk, Except.toBool, this]
    · have h0 : (0 : ℚ) < q := lt_of_not_ge hq
      refine ⟨?_, ?_, ?_⟩ <;>
        simp [WaitTask.construct, hq, Except.isOk, Except.toBool, h0]
  | other =>
    refine ⟨?_, ?_, ?_⟩ <;> simp [WaitTask.construct, Except.isOk, Except.toBool]

/-- Witness for C8: interval `-5` is rejected and the frame's wait-task
set stays empty. -/
theorem waitTask_polling_validation_witness :
    ((WaitTask.construct (Polling.num (-5)) 30000 [] 0).result.isOk = false →
        (WaitTask.construct (Polling.num (-5)) 30000 [] 0).frameWaitTasks = []) ∧
      (WaitTask.construct (Polling.num (-5)) 30000 [] 0).result.isOk = false :=
  ⟨(waitTask_polling_validation (Polling.num (-5)) 30000 [] 0).2.1, by decide⟩

/-- Claim C5 (amended): `WaitTask.__init__` schedules the timeout-timer
coroutine unconditionally — for every timeout value, including 0 and
negative values (`asyncio.sleep(timeout / 1000)` returns immediately for
those) — and the timer body, when it runs on a still-pending task, flags
`_timeoutError` and resolves the task with a `WaitTimeoutError`. -/
theorem waitTask_timer_always_armed (p : Polling) (timeout : ℚ)
    (frameTasks : List Nat) (taskId : Nat) (t : WaitTaskState)
    (ht : (WaitTask.construct p timeout frameTasks taskId).result = Except.ok t) :
    (WaitTask.construct p timeout frameTasks taskId).timerArmed = true ∧
      resolvedWithTimeout (WaitTask.timerFire t) = true ∧
      (WaitTask.timerFire t).terminated = true ∧
      (WaitTask.timerFire t).timeoutError = true := by
  cases p with
  | str s =>
    by_cases hc : s ≠ "raf" ∧ s ≠ "mutation"
    · simp [WaitTask.construct, hc] at ht
    · have harm : (WaitTask.construct (Polling.str s) timeout frameTasks
          taskId).timerArmed = true := by
        simp [WaitTask.construct, hc]
      have ht' : t =
          { polling := Polling.str s, timeout := timeout, runCount := 0,
            terminated := false, timeoutError := false,
            promise := PromiseState.pending, timerCancelled := false,
            inFrameSet := true } := by
        simp [WaitTask.construct, hc] at ht
        exact ht.symm
      subst ht'
      exact ⟨harm, rfl, rfl, rfl⟩
  | num q =>
    by_cases hq : q ≤ 0
    · simp [WaitTask.construct, hq] at ht
    · have harm : (WaitTask.construct (Polling.num q) timeout frameTasks
          taskId).timerArmed = true := by
        simp [WaitTask.construct, hq]
      have ht' : t =
          { polling := Polling.num q, timeout := timeout, runCount := 0,
            terminated := false, timeoutError := false,
            promise := PromiseState.pending, timerCancelled := false,
            inFrameSet := true } := by
        simp [WaitTask.construct, hq] at ht
        exact ht.symm
      subst ht'
      exact ⟨harm, rfl, rfl, rfl⟩
  | other => simp [WaitTask.construct] at ht

/-- Witness for C5's amended statement: a freshly constructed
`"mutation"`-polling task with timeout 500 has its timer armed, and the
timer body times the task out. -/
theorem waitTask_timer_always_armed_witness :
    (WaitTask.construct (Polling.str "mutation") 500 [] 1).timerArmed = true ∧
      resolvedWithTimeout (WaitTask.timerFire
        { polling := Polling.str "mutation", timeout := 500, runCount := 0,
          terminated := false, timeoutError := false,
          promise := PromiseState.pending, timerCancelled := false,
          inFrameSet := true }) = true ∧
      (WaitTask.timerFire
        { polling := Polling.str "mutation", timeout := 500, runCount := 0,
          terminated := false, timeoutError := false,
          promise := PromiseState.pending, timerCancelled := false,
          inFrameSet := true }).terminated = true ∧
      (WaitTask.timerFire
        { polling := Polling.str "mutation", timeout := 500, runCount := 0,
          terminated := false, timeoutError := false,
          promise := PromiseState.pending, timerCancelled := false,
          inFrameSet := true }).timeoutError = true :=
  waitTask_timer_always_armed (Polling.str "mutation") 500 [] 1 _ (by decide)

/-- Counterexample to C5 as stated: with timeout 0 (≤ 0) the source still
schedules the timer (`ensure_future(timer(self._timeout))` is
unconditional), and the timer body resolves the pending task with a
timeout error — so a task with non-positive timeout can be resolved by
the timeout timer, contradicting "the timeout timer never fires". -/
theorem waitTask_timeout_zero_fires :
    (WaitTask.construct (Polling.str "raf") 0 [] 0).timerArmed = true ∧
      (WaitTask.construct (Polling.str "raf") 0 [] 0).result.map
          (fun t => resolvedWithTimeout (WaitTask.timerFire t)) =
        Except.ok true := by
  constructor
  · rfl
  · rfl

/-! ## Chrome / BrowserContext claims -/

/-- Claim C7 (code bug in `BrowserContext.close`): the early-return guard
is inverted (`if cntx is not None: return` instead of `is None`), so for a
registered non-default context `close()` issues no
`Target.disposeBrowserContext` call and leaves `Chrome._contexts`
unchanged — and indeed `close()` never disposes anything for any context:
the non-default path returns early, and the default path calls
`_disposeContext(None)`, which is a no-op. -/
theorem browserContext_close_never_disposes :
    BrowserContext.close { id := some "ctx1", isDefaultObject := false }
        [("ctx1", { id := some "ctx1", isDefaultObject := false })] =
      ([], Except.ok [("ctx1", { id := some "ctx1", isDefaultObject := false })]) ∧
      ∀ (ctx : BrowserContextM) (contexts : List (String × BrowserContextM)),
        BrowserContext.close ctx contexts = ([], Except.ok contexts) := by
  constructor
  · rfl
  · intro ctx contexts
    unfold BrowserContext.close
    by_cases hd : ctx.isDefaultObject = true
    · simp [hd, Chrome.disposeContext]
    · cases hid : ctx.id with
      | none => simp [hd, hid, Chrome.disposeContext]
      | some cid => simp [hd, hid]

/-- Claim C9: `Chrome._targetCreated` raises `BrowserError` when the
target id is already registered, before the registry assignment runs, so
the previously registered entry survives unchanged. -/
theorem chrome_targetCreated_duplicate_rejected (tinfo : TargetInfo)
    (contexts : List (String × BrowserContextM))
    (defaultContext : BrowserContextM) (targets : List (String × TargetM))
    (h : (alookup targets tinfo.targetId).isSome = true) :
    Chrome.targetCreated tinfo contexts defaultContext targets =
        Except.error "target should not exist before create." ∧
      registryAfter targets
          (Chrome.targetCreated tinfo contexts defaultContext targets) =
        targets := by
  have herr : Chrome.targetCreated tinfo contexts defaultContext targets =
      Except.error "target should not exist before create." := by
    unfold Chrome.targetCreated
    simp [h]
  exact ⟨herr, by rw [herr]; rfl⟩

/-- Witness for C9: re-creating target id `"T1"` is rejected and the
original entry stays. -/
theorem chrome_targetCreated_duplicate_rejected_witness :
    (alookup [("T1", sampleTarget)] "T1").isSome = true ∧
      (Chrome.targetCreated
          { targetId := "T1", browserContextId := none, url := "p2" } []
          { id := none, isDefaultObject := true } [("T1", sampleTarget)] =
        Except.error "target should not exist before create." ∧
      registryAfter [("T1", sampleTarget)]
          (Chrome.targetCreated
            { targetId := "T1", browserContextId := none, url := "p2" } []
            { id := none, isDefaultObject := true } [("T1", sampleTarget)]) =
        [("T1", sampleTarget)]) :=
  ⟨by decide, chrome_targetCreated_duplicate_rejected _ _ _ _ (by decide)⟩

/-! ## FrameManager claims: context destruction and same-document navigation -/

/-- Claim C10: delivering `Runtime.executionContextDestroyed` for a
context id that is not in `_contextIdToContext` (e.g. a duplicate
delivery) returns before touching anything: the whole manager state —
context registry, every frame (including its default-context slot and
wait-task set), the frame registry and the event log — is returned
unchanged, and no exception is raised. -/
theorem executionContextDestroyed_unknown_noop (cid : Nat) (st : FMState)
    (h : alookup st.contexts cid = none) :
    FrameManager.onExecutionContextDestroyed cid st = Except.ok st := by
  unfold FrameManager.onExecutionContextDestroyed
  rw [h]

/-- Witness for C10: destroying unknown context id 5 in a state with one
frame and one live context is a no-op. -/
theorem executionContextDestroyed_unknown_noop_witness :
    alookup sampleState.contexts 5 = none ∧
      FrameManager.onExecutionContextDestroyed 5 sampleState =
        Except.ok sampleState :=
  ⟨by decide, executionContextDestroyed_unknown_noop 5 sampleState (by decide)⟩

/-- Claim C6: for a tracked frame, `Page.navigatedWithinDocument` updates
only that frame — new url, url appended to its navigation history, every
other attribute (parent, children, default-context slot, wait tasks,
detached flag, name, id) intact — while every other frame, the frame
registry, the main-frame pointer and the context registry are untouched;
the only added event is the page's NavigatedWithinDoc. -/
theorem navigatedWithinDocument_updates_only_target (st : FMState)
    (frameId url : String) (r : Nat) (d : FrameData)
    (hreg : alookup st.frames frameId = some r)
    (hheap : alookup st.heap r = some d) :
    ∃ st', FrameManager.onNavigatedWithinDocument frameId url st = Except.ok st' ∧
      alookup st'.heap r =
        some { d with url := url, navigations := d.navigations ++ [url] } ∧
      (∀ x, x ≠ r → alookup st'.heap x = alookup st.heap x) ∧
      st'.frames = st.frames ∧
      st'.mainFrame = st.mainFrame ∧
      st'.contexts = st.contexts ∧
      st'.nextRef = st.nextRef ∧
      st'.events = st.events ++ [FMEvent.navigatedWithinDoc frameId url] := by
  have hres : FrameManager.onNavigatedWithinDocument frameId url st =
      Except.ok
        { st with
          heap := aupdate st.heap r
            (fun d0 =>
              { d0 with url := url, navigations := d0.navigations ++ [url] }),
          events := st.events ++ [FMEvent.navigatedWithinDoc frameId url] } := by
    unfold FrameManager.onNavigatedWithinDocument frameNavigatedWithinDocumentStep
    rw [hreg]
  refine ⟨_, hres, ?_, ?_, rfl, rfl, rfl, rfl, rfl⟩
  · show alookup (aupdate st.heap r _) r = _
    rw [alookup_aupdate_self, hheap]
    rfl
  · intro x hx
    simp only
    rw [alookup_aupdate_ne _ _ _ _ hx]

/-! ## Frame removal preserves the manager core (toward C1 and C2) -/

theorem coreAgrees_refl (st : FMState) : coreAgrees st st :=
  ⟨rfl, rfl, rfl, fun _ => rfl⟩

theorem coreAgrees_trans {a b c : FMState}
    (h1 : coreAgrees a b) (h2 : coreAgrees b c) : coreAgrees a c := by
  obtain ⟨m1, c1, n1, f1⟩ := h1
  obtain ⟨m2, c2, n2, f2⟩ := h2
  exact ⟨m1.trans m2, c1.trans c2, n1.trans n2, fun x => (f1 x).trans (f2 x)⟩

theorem alookup_aupdate_fid (heap : List (Nat × FrameData)) (k : Nat)
    (f : FrameData → FrameData) (hf : ∀ d, (f d).fid = d.fid) (x : Nat) :
    (alookup (aupdate heap k f) x).map FrameData.fid =
      (alookup heap x).map FrameData.fid := by
  by_cases hx : x = k
  · subst hx
    rw [alookup_aupdate_self]
    cases alookup heap x <;> simp [hf]
  · rw [alookup_aupdate_ne _ _ _ _ hx]

theorem frameDetachStep_coreAgrees (r : Nat) (st : FMState) :
    coreAgrees (frameDetachStep r st) st := by
  unfold frameDetachStep
  cases hd : alookup st.heap r with
  | none => exact coreAgrees_refl st
  | some d =>
    refine ⟨rfl, rfl, rfl, ?_⟩
    intro x
    cases hp : d.parent with
    | none =>
      simp only [hp]
      rw [alookup_aupdate_fid _ r
        (fun d0 => { d0 with parent := none }) (fun d0 => rfl) x]
      rw [alookup_aupdate_fid st.heap r
        (fun d0 => { d0 with detached := true, waitTasks := [] })
        (fun d0 => rfl) x]
    | some q =>
      simp only [hp]
      rw [alookup_aupdate_fid _ r
        (fun d0 => { d0 with parent := none }) (fun d0 => rfl) x]
      rw [alookup_aupdate_fid _ q
        (fun pd =>
          { pd with children := List.filter (fun c => c != r) pd.children })
        (fun d0 => rfl) x]
      rw [alookup_aupdate_fid st.heap r
        (fun d0 => { d0 with detached := true, waitTasks := [] })
        (fun d0 => rfl) x]

theorem removeFramesRecursively_succ (fuel r : Nat) (st : FMState) :
    removeFramesRecursively (fuel + 1) r st =
      (match alookup st.heap r with
       | none => st
       | some d =>
         let st1 := d.children.foldl (fun s c => removeFramesRecursively fuel c s) st
         let st2 := frameDetachStep r st1
         let fid :=
           match alookup st2.heap r with
           | some d2 => d2.fid
           | none => d.fid
         let st3 :=
           if (alookup st2.frames fid).isSome then
             { st2 with frames := aerase st2.frames fid }
           else st2
         { st3 with events := st3.events ++ [FMEvent.frameDetached r fid] }) := rfl

theorem removeFramesRecursively_coreAgrees :
    ∀ (fuel r : Nat) (st : FMState),
      coreAgrees (removeFramesRecursively fuel r st) st := by
  intro fuel
  induction fuel with
  | zero => intro r st; exact coreAgrees_refl st
  | succ fuel ih =>
    intro r st
    have hfold : ∀ (l : List Nat) (s : FMState),
        coreAgrees (l.foldl (fun s c => removeFramesRecursively fuel c s) s) s := by
      intro l
      induction l with
      | nil => intro s; exact coreAgrees_refl s
      | cons c rest ihl =>
        intro s
        exact coreAgrees_trans (ihl _) (ih c s)
    rw [removeFramesRecursively_succ]
    cases hd : alookup st.heap r with
    | none => exact coreAgrees_refl st
    | some d =>
      simp only
      have h1 := hfold d.children st
      have h2 := frameDetachStep_coreAgrees r
        (d.children.foldl (fun s c => removeFramesRecursively fuel c s) st)
      have h12 := coreAgrees_trans h2 h1
      set st2 := frameDetachStep r
        (d.children.foldl (fun s c => removeFramesRecursively fuel c s) st) with hst2
      set fid :=
        (match alookup st2.heap r with
         | some d2 => d2.fid
         | none => d.fid) with hfid
      by_cases hin : (alookup st2.frames fid).isSome = true
      · simp only [hin, if_true]
        exact coreAgrees_trans ⟨rfl, rfl, rfl, fun _ => rfl⟩ h12
      · simp only [hin, if_false, Bool.false_eq_true]
        exact coreAgrees_trans ⟨rfl, rfl, rfl, fun _ => rfl⟩ h12

/-- Claim C1: a `frameNavigated` payload with no parent id, arriving while
a main frame exists, keeps the very same Frame object (`st'.mainFrame` is
the unchanged reference `r`, so caller-held references stay valid) while
rebinding its tracking key: afterwards `frame(new id)` yields that same
object (now carrying the new id), and `frame(old id)` yields none. -/
theorem mainFrame_identity_preserved (fuel : Nat) (st : FMState) (r : Nat)
    (d : FrameData) (p : FramePayload)
    (hmain : st.mainFrame = some r) (hheap : alookup st.heap r = some d)
    (hpar : truthyOptStr p.parentId = false) (hne : p.id ≠ d.fid) :
    ∃ st', FrameManager.onFrameNavigated fuel p st = Except.ok st' ∧
      st'.mainFrame = st.mainFrame ∧
      st'.mainFrame = some r ∧
      alookup st'.frames p.id = some r ∧
      alookup st'.frames d.fid = none ∧
      (alookup st'.heap r).map FrameData.fid = some p.id := by
  have hcore := removeFramesRecursively_coreAgrees
  have hfold : coreAgrees
      (d.children.foldl (fun s c => removeFramesRecursively fuel c s) st) st := by
    have : ∀ (l : List Nat) (s : FMState),
        coreAgrees (l.foldl (fun s c => removeFramesRecursively fuel c s) s) s := by
      intro l
      induction l with
      | nil => intro s; exact coreAgrees_refl s
      | cons c rest ihl =>
        intro s
        exact coreAgrees_trans (ihl _) (hcore fuel c s)
    exact this d.children st
  obtain ⟨hmf1, hctx1, hnr1, hfid1⟩ := hfold
  have hfid1r : (alookup
      (d.children.foldl (fun s c => removeFramesRecursively fuel c s) st).heap
        r).map FrameData.fid = some d.fid := by
    rw [hfid1 r, hheap]
    rfl
  obtain ⟨d1, hd1, hd1fid⟩ : ∃ d1,
      alookup
        (d.children.foldl (fun s c => removeFramesRecursively fuel c s) st).heap
          r = some d1 ∧ d1.fid = d.fid := by
    cases hh : alookup
        (d.children.foldl (fun s c => removeFramesRecursively fuel c s) st).heap
          r with
    | none => rw [hh] at hfid1r; cases hfid1r
    | some d1 =>
      rw [hh] at hfid1r
      exact ⟨d1, rfl, Option.some.inj hfid1r⟩
  unfold FrameManager.onFrameNavigated frameNavigatedStep
  rw [hpar, hmain]
  simp only [Bool.not_false, eq_self_iff_true, if_true, Bool.true_or,
    Bool.not_true, Bool.false_eq_true, if_false, Option.isSome_some,
    hheap, hd1]
  refine ⟨_, rfl, ?_, ?_, ?_, ?_, ?_⟩
  · rfl
  · rfl
  · exact alookup_ainsert_self _ _ _
  · rw [alookup_ainsert_ne _ _ _ _ (Ne.symm hne), hd1fid]
    exact alookup_aerase_self _ _
  · rw [alookup_aupdate_self, alookup_aupdate_self, hd1]
    rfl

/-- Witness for C1: a cross-process main-frame navigation of the
one-frame sample state from id "A" to id "B". -/
theorem mainFrame_identity_preserved_witness :
    sampleState.mainFrame = some 0 ∧
      alookup sampleState.heap 0 = some sampleFrameA ∧
      truthyOptStr (none : Option String) = false ∧
      "B" ≠ sampleFrameA.fid ∧
      ∃ st', FrameManager.onFrameNavigated 2
          { id := "B", parentId := none, url := "u2", name := "" }
          sampleState = Except.ok st' ∧
        st'.mainFrame = sampleState.mainFrame ∧
        st'.mainFrame = some 0 ∧
        alookup st'.frames "B" = some 0 ∧
        alookup st'.frames sampleFrameA.fid = none ∧
        (alookup st'.heap 0).map FrameData.fid = some "B" :=
  ⟨by decide, by decide, by decide, by decide,
    mainFrame_identity_preserved 2 sampleState 0 sampleFrameA
      { id := "B", parentId := none, url := "u2", name := "" }
      (by decide) (by decide) (by decide) (by decide)⟩

/-- Witness for C6: same-document navigation of frame "A" to "v" in the
one-frame sample state. -/
theorem navigatedWithinDocument_updates_only_target_witness :
    alookup sampleState.frames "A" = some 0 ∧
      alookup sampleState.heap 0 = some sampleFrameA ∧
      ∃ st', FrameManager.onNavigatedWithinDocument "A" "v" sampleState =
          Except.ok st' ∧
        alookup st'.heap 0 =
          some
            { sampleFrameA with
              url := "v", navigations := sampleFrameA.navigations ++ ["v"] } ∧
        (∀ x, x ≠ 0 → alookup st'.heap x = alookup sampleState.heap x) ∧
        st'.frames = sampleState.frames ∧
        st'.mainFrame = sampleState.mainFrame ∧
        st'.contexts = sampleState.contexts ∧
        st'.nextRef = sampleState.nextRef ∧
        st'.events = sampleState.events ++ [FMEvent.navigatedWithinDoc "A" "v"] :=
  ⟨by decide, by decide,
    navigatedWithinDocument_updates_only_target sampleState "A" "v" 0
      sampleFrameA (by decide) (by decide)⟩

/-! ## Lemmas about frame forests and removal (toward C2) -/

theorem postF_length (f : FrameF) : f.postF.length = f.sizeF := by
  induction f with
  | nil => rfl
  | cons r i kids sibs ihk ihs =>
    simp [FrameF.postF, FrameF.sizeF, ihk, ihs]
    omega

theorem postRefsF_cons (r : Nat) (i : String) (kids sibs : FrameF) :
    (FrameF.cons r i kids sibs).postRefsF =
      kids.postRefsF ++ r :: sibs.postRefsF := by
  simp [FrameF.postRefsF, FrameF.postF]

theorem idsF_cons (r : Nat) (i : String) (kids sibs : FrameF) :
    (FrameF.cons r i kids sibs).idsF = kids.idsF ++ i :: sibs.idsF := by
  simp [FrameF.idsF, FrameF.postF]

theorem mem_postRefsF (f : FrameF) (x : Nat) :
    x ∈ f.postRefsF ↔ x ∈ f.refsF := by
  induction f with
  | nil => simp [FrameF.postRefsF, FrameF.postF, FrameF.refsF]
  | cons r i kids sibs ihk ihs =>
    rw [postRefsF_cons]
    simp only [FrameF.refsF, List.mem_append, List.mem_cons, ihk, ihs]
    tauto

theorem rootsF_subset_refsF (f : FrameF) (x : Nat) (h : x ∈ f.rootsF) :
    x ∈ f.refsF := by
  induction f with
  | nil => cases h
  | cons r i kids sibs ihk ihs =>
    simp only [FrameF.rootsF, List.mem_cons] at h
    simp only [FrameF.refsF, List.mem_cons, List.mem_append]
    rcases h with h | h
    · exact Or.inl h
    · exact Or.inr (Or.inr (ihs h))

theorem parentChildF_mem_refsF (f : FrameF) (pr : Nat × Nat)
    (h : pr ∈ f.parentChildF) : pr.1 ∈ f.refsF ∧ pr.2 ∈ f.refsF := by
  induction f with
  | nil => cases h
  | cons r i kids sibs ihk ihs =>
    simp only [FrameF.parentChildF, List.mem_append, List.mem_map] at h
    simp only [FrameF.refsF, List.mem_cons, List.mem_append]
    rcases h with ⟨c, hc, hpr⟩ | h | h
    · cases hpr
      exact ⟨Or.inl rfl, Or.inr (Or.inl (rootsF_subset_refsF _ _ hc))⟩
    · obtain ⟨hA, hB⟩ := ihk h
      exact ⟨Or.inr (Or.inl hA), Or.inr (Or.inl hB)⟩
    · obtain ⟨hA, hB⟩ := ihs h
      exact ⟨Or.inr (Or.inr hA), Or.inr (Or.inr hB)⟩

theorem idxOfRef_append_of_mem (l₁ l₂ : List Nat) (x : Nat) (h : x ∈ l₁) :
    idxOfRef (l₁ ++ l₂) x = idxOfRef l₁ x := by
  induction l₁ with
  | nil => cases h
  | cons a rest ih =>
    by_cases ha : a = x
    · simp [idxOfRef, ha]
    · have hx : x ∈ rest := by
        rcases List.mem_cons.mp h with h1 | h1
        · exact absurd h1.symm ha
        · exact h1
      simp [idxOfRef, ha, ih hx]

theorem idxOfRef_append_of_not_mem (l₁ l₂ : List Nat) (x : Nat) (h : ¬ x ∈ l₁) :
    idxOfRef (l₁ ++ l₂) x = l₁.length + idxOfRef l₂ x := by
  induction l₁ with
  | nil => simp [idxOfRef]
  | cons a rest ih =>
    have ha : a ≠ x := fun hc => h (by simp [hc])
    have hx : ¬ x ∈ rest := fun hc => h (by simp [hc])
    simp [idxOfRef, ha, ih hx]
    omega

theorem idxOfRef_lt_length_of_mem (l : List Nat) (x : Nat) (h : x ∈ l) :
    idxOfRef l x < l.length := by
  induction l with
  | nil => cases h
  | cons a rest ih =>
    by_cases ha : a = x
    · simp [idxOfRef, ha]
    · have hx : x ∈ rest := by
        rcases List.mem_cons.mp h with h1 | h1
        · exact absurd h1.symm ha
        · exact h1
      simp [idxOfRef, ha]
      exact ih hx

theorem filter_ne_then_drop (l : List Nat) (r : Nat) (roots : List Nat) :
    (l.filter (fun c => c != r)).filter (fun c => decide (¬ c ∈ roots)) =
      l.filter (fun c => decide (¬ c ∈ r :: roots)) := by
  induction l with
  | nil => rfl
  | cons a rest ih =>
    by_cases har : a = r
    · have e1 : (a :: rest).filter (fun c => c != r) =
          rest.filter (fun c => c != r) := by
        simp [List.filter_cons, har]
      have e2 : (a :: rest).filter (fun c => decide (¬ c ∈ r :: roots)) =
          rest.filter (fun c => decide (¬ c ∈ r :: roots)) := by
        simp [List.filter_cons, har]
      rw [e1, e2, ih]
    · have e1 : (a :: rest).filter (fun c => c != r) =
          a :: rest.filter (fun c => c != r) := by
        simp [List.filter_cons, har]
      by_cases hm : a ∈ roots
      · have e2 : (a :: rest.filter (fun c => c != r)).filter
            (fun c => decide (¬ c ∈ roots)) =
            (rest.filter (fun c => c != r)).filter
              (fun c => decide (¬ c ∈ roots)) := by
          simp [List.filter_cons, hm]
        have e3 : (a :: rest).filter (fun c => decide (¬ c ∈ r :: roots)) =
            rest.filter (fun c => decide (¬ c ∈ r :: roots)) := by
          simp [List.filter_cons, hm]
        rw [e1, e2, e3, ih]
      · have e2 : (a :: rest.filter (fun c => c != r)).filter
            (fun c => decide (¬ c ∈ roots)) =
            a :: (rest.filter (fun c => c != r)).filter
              (fun c => decide (¬ c ∈ roots)) := by
          simp [List.filter_cons, hm]
        have e3 : (a :: rest).filter (fun c => decide (¬ c ∈ r :: roots)) =
            a :: rest.filter (fun c => decide (¬ c ∈ r :: roots)) := by
          simp [List.filter_cons, hm, har]
        rw [e1, e2, e3, ih]

theorem filter_drop_all (l roots : List Nat) (h : ∀ c ∈ l, c ∈ roots) :
    l.filter (fun c => decide (¬ c ∈ roots)) = [] := by
  induction l with
  | nil => rfl
  | cons a rest ih =>
    have ha : a ∈ roots := h a (by simp)
    have hrest := ih (fun c hc => h c (by simp [hc]))
    simp only [List.filter_cons, ha, not_true_eq_false, decide_False,
      if_false, decide_not]
    simpa using hrest

theorem dropChildren_nil (dd : FrameData) : dropChildren [] dd = dd := by
  simp [dropChildren]

theorem dropChildren_after_detach (r : Nat) (roots : List Nat) (dd : FrameData) :
    dropChildren roots
        { dd with children := dd.children.filter (fun c => c != r) } =
      dropChildren (r :: roots) dd := by
  simp only [dropChildren, filter_ne_then_drop]

theorem shapeChildren_congr (f : FrameF) :
    ∀ (h₁ h₂ : List (Nat × FrameData)) (p : Nat),
      (∀ x, x ∈ f.refsF → alookup h₁ x = alookup h₂ x) →
      shapeChildren h₁ p f = shapeChildren h₂ p f := by
  induction f with
  | nil => intro h₁ h₂ p _; rfl
  | cons r i kids sibs ihk ihs =>
    intro h₁ h₂ p hagree
    have hr : alookup h₁ r = alookup h₂ r :=
      hagree r (by simp [FrameF.refsF])
    have hk : shapeChildren h₁ r kids = shapeChildren h₂ r kids :=
      ihk h₁ h₂ r (fun x hx =>
        hagree x (by simp [FrameF.refsF, List.mem_append, hx]))
    have hs : shapeChildren h₁ p sibs = shapeChildren h₂ p sibs :=
      ihs h₁ h₂ p (fun x hx =>
        hagree x (by simp [FrameF.refsF, List.mem_append, hx]))
    simp only [shapeChildren, hr, hk, hs]

theorem eraseStage (st2 : FMState) (i : String) :
    (if (alookup st2.frames i).isSome then
        { st2 with frames := aerase st2.frames i }
      else st2) =
      { st2 with frames := aerase st2.frames i } := by
  by_cases h : (alookup st2.frames i).isSome = true
  · simp [h]
  · have hnone : alookup st2.frames i = none := by
      cases hh : alookup st2.frames i with
      | none => rfl
      | some v => rw [hh] at h; simp at h
    simp [h, aerase_of_alookup_none _ _ hnone]

theorem frameDetachStep_spec (r : Nat) (st : FMState) (d : FrameData)
    (hd : alookup st.heap r = some d) :
    (frameDetachStep r st).frames = st.frames ∧
      (frameDetachStep r st).events = st.events ∧
      (∀ x, x ≠ r → (∀ q, d.parent = some q → x ≠ q) →
        alookup (frameDetachStep r st).heap x = alookup st.heap x) ∧
      (∀ q, d.parent = some q → q ≠ r →
        alookup (frameDetachStep r st).heap q =
          (alookup st.heap q).map
            (fun pd =>
              { pd with children := pd.children.filter (fun c => c != r) })) := by
  cases hp : d.parent with
  | none =>
    refine ⟨?_, ?_, ?_, ?_⟩
    · simp only [frameDetachStep, hd]
    · simp only [frameDetachStep, hd]
    · intro x hxr _
      simp only [frameDetachStep, hd, hp]
      rw [alookup_aupdate_ne _ _ _ _ hxr, alookup_aupdate_ne _ _ _ _ hxr]
    · intro q hq
      exact absurd hq (by simp)
  | some p =>
    refine ⟨?_, ?_, ?_, ?_⟩
    · simp only [frameDetachStep, hd]
    · simp only [frameDetachStep, hd]
    · intro x hxr hxq
      have hxp : x ≠ p := hxq p rfl
      simp only [frameDetachStep, hd, hp]
      rw [alookup_aupdate_ne _ _ _ _ hxr, alookup_aupdate_ne _ _ _ _ hxp,
        alookup_aupdate_ne _ _ _ _ hxr]
    · intro q hq hqr
      obtain rfl : q = p := (Option.some.inj hq).symm
      simp only [frameDetachStep, hd, hp]
      rw [alookup_aupdate_ne _ _ _ _ hqr, alookup_aupdate_self,
        alookup_aupdate_ne _ _ _ _ hqr]

theorem removeForest_coreAgrees (fuel : Nat) (l : List Nat) (st : FMState) :
    coreAgrees (l.foldl (fun s c => removeFramesRecursively fuel c s) st) st := by
  induction l generalizing st with
  | nil => exact coreAgrees_refl st
  | cons c rest ih =>
    exact coreAgrees_trans (ih _) (removeFramesRecursively_coreAgrees fuel c st)

/-- Behaviour of `_removeFramesRecursively`, run over every root of a
forest realized below parent `p` (as in the children loops of
`_onFrameNavigated` and of the recursion itself): it appends one
FrameDetached event per frame in depth-first post-order, evicts exactly
the forest's frame ids from the registry, leaves every heap entry outside
the forest untouched except the parent's child set (which loses exactly
the forest's roots). -/
theorem removeForest_spec :
    ∀ (f : FrameF) (fuel p : Nat) (st : FMState),
      shapeChildren st.heap p f = true →
      (p :: f.refsF).Nodup →
      f.depthF ≤ fuel →
      ((f.rootsF.foldl (fun s c => removeFramesRecursively fuel c s) st).events =
          st.events ++ removalEvents f) ∧
      ((f.rootsF.foldl (fun s c => removeFramesRecursively fuel c s) st).frames =
          eraseKeys st.frames f.idsF) ∧
      (∀ x, ¬ x ∈ f.refsF → x ≠ p →
        alookup
          (f.rootsF.foldl (fun s c => removeFramesRecursively fuel c s) st).heap
            x = alookup st.heap x) ∧
      (alookup
          (f.rootsF.foldl (fun s c => removeFramesRecursively fuel c s) st).heap
            p = (alookup st.heap p).map (dropChildren f.rootsF)) := by
  intro f
  induction f with
  | nil =>
    intro fuel p st _ _ _
    refine ⟨?_, ?_, ?_, ?_⟩
    · simp [FrameF.rootsF, removalEvents, FrameF.postF]
    · simp [FrameF.rootsF, FrameF.idsF, FrameF.postF, eraseKeys]
    · intro x _ _
      simp [FrameF.rootsF]
    · simp only [FrameF.rootsF, List.foldl_nil]
      cases alookup st.heap p with
      | none => rfl
      | some dd => simp [dropChildren_nil]
  | cons r i kids sibs ihk ihs =>
    intro fuel p st hshape hnodup hdepth
    simp only [shapeChildren] at hshape
    cases hdr : alookup st.heap r with
    | none =>
      rw [hdr] at hshape
      exact absurd hshape (by simp)
    | some dr =>
      rw [hdr] at hshape
      simp only [Bool.and_eq_true, beq_iff_eq] at hshape
      obtain ⟨⟨⟨⟨hfid, hpar⟩, hch⟩, hks⟩, hss⟩ := hshape
      have hnd := hnodup
      rw [show FrameF.refsF (FrameF.cons r i kids sibs) =
        r :: (kids.refsF ++ sibs.refsF) from rfl] at hnd
      simp only [List.nodup_cons, List.mem_cons, List.mem_append, not_or,
        List.nodup_append] at hnd
      obtain ⟨⟨hpr, hpk, hps⟩, ⟨hrk, hrs⟩, hkN, hsN, hdisj⟩ := hnd
      have h1k : 1 + kids.depthF ≤ fuel :=
        le_trans (le_max_left _ _) (by simpa [FrameF.depthF] using hdepth)
      have hsdep : sibs.depthF ≤ fuel :=
        le_trans (le_max_right _ _) (by simpa [FrameF.depthF] using hdepth)
      cases fuel with
      | zero => omega
      | succ fuel₀ =>
        have hkd : kids.depthF ≤ fuel₀ := by omega
        have hknodup : (r :: kids.refsF).Nodup :=
          List.nodup_cons.mpr ⟨hrk, hkN⟩
        obtain ⟨A1, A2, A3, A4⟩ := ihk fuel₀ r st hks hknodup hkd
        -- the state after removing the children forest of `r`
        have hA4some : alookup
            (kids.rootsF.foldl
              (fun s c => removeFramesRecursively fuel₀ c s) st).heap r =
            some (dropChildren kids.rootsF dr) := by
          rw [A4, hdr]
          rfl
        -- the detached frame data and its post-detach heap entry
        have hdr1parent : (dropChildren kids.rootsF dr).parent = some p := hpar
        have hdr1fid : (dropChildren kids.rootsF dr).fid = i := hfid
        obtain ⟨B1, B2, B3, B4⟩ := frameDetachStep_spec r
          (kids.rootsF.foldl (fun s c => removeFramesRecursively fuel₀ c s) st)
          (dropChildren kids.rootsF dr) hA4some
        have hfid2 := (frameDetachStep_coreAgrees r
          (kids.rootsF.foldl
            (fun s c => removeFramesRecursively fuel₀ c s) st)).2.2.2 r
        rw [hA4some] at hfid2
        obtain ⟨d2, hd2, hd2fid⟩ : ∃ d2,
            alookup (frameDetachStep r
              (kids.rootsF.foldl
                (fun s c => removeFramesRecursively fuel₀ c s) st)).heap r =
              some d2 ∧ d2.fid = i := by
          cases hh : alookup (frameDetachStep r
              (kids.rootsF.foldl
                (fun s c => removeFramesRecursively fuel₀ c s) st)).heap r with
          | none => rw [hh] at hfid2; cases hfid2
          | some d2 =>
            rw [hh] at hfid2
            exact ⟨d2, rfl, by
              have := Option.some.inj hfid2
              rw [this, hdr1fid]⟩
        -- one unfolding of the removal of `r` itself
        have hstepA : removeFramesRecursively (Nat.succ fuel₀) r st =
            { frameDetachStep r
                (kids.rootsF.foldl
                  (fun s c => removeFramesRecursively fuel₀ c s) st) with
              frames := aerase (frameDetachStep r
                (kids.rootsF.foldl
                  (fun s c => removeFramesRecursively fuel₀ c s) st)).frames i,
              events := (frameDetachStep r
                (kids.rootsF.foldl
                  (fun s c => removeFramesRecursively fuel₀ c s) st)).events ++
                [FMEvent.frameDetached r i] } := by
          rw [removeFramesRecursively_succ]
          simp only [hdr, hch, hd2, hd2fid, eraseStage]
        have hAevents : (removeFramesRecursively (Nat.succ fuel₀) r st).events =
            st.events ++ removalEvents kids ++ [FMEvent.frameDetached r i] := by
          rw [hstepA]
          show (frameDetachStep r _).events ++ [FMEvent.frameDetached r i] = _
          rw [B2, A1]
        have hAframes : (removeFramesRecursively (Nat.succ fuel₀) r st).frames =
            aerase (eraseKeys st.frames kids.idsF) i := by
          rw [hstepA]
          show aerase (frameDetachStep r _).frames i = _
          rw [B1, A2]
        have hAheap : ∀ x, x ≠ r → ¬ x ∈ kids.refsF → x ≠ p →
            alookup (removeFramesRecursively (Nat.succ fuel₀) r st).heap x =
              alookup st.heap x := by
          intro x hxr hxk hxp
          rw [hstepA]
          show alookup (frameDetachStep r _).heap x = _
          rw [B3 x hxr (fun q hq => by
            rw [hdr1parent] at hq
            cases Option.some.inj hq
            exact hxp), A3 x hxk hxr]
        have hAheapp :
            alookup (removeFramesRecursively (Nat.succ fuel₀) r st).heap p =
              (alookup st.heap p).map
                (fun pd =>
                  { pd with
                    children := pd.children.filter (fun c => c != r) }) := by
          rw [hstepA]
          show alookup (frameDetachStep r _).heap p = _
          rw [B4 p hdr1parent hpr, A3 p hpk hpr]
        have hshs : shapeChildren
            (removeFramesRecursively (Nat.succ fuel₀) r st).heap p sibs =
            true := by
          have hcongr := shapeChildren_congr sibs
            (removeFramesRecursively (Nat.succ fuel₀) r st).heap st.heap p
            (fun x hx => hAheap x (fun he => hrs (he ▸ hx))
              (fun hk => hdisj hk hx) (fun he => hps (he ▸ hx)))
          rw [hcongr]
          exact hss
        have hsnodup : (p :: sibs.refsF).Nodup := List.nodup_cons.mpr ⟨hps, hsN⟩
        obtain ⟨C1, C2, C3, C4⟩ := ihs (Nat.succ fuel₀) p
          (removeFramesRecursively (Nat.succ fuel₀) r st) hshs hsnodup hsdep
        refine ⟨?_, ?_, ?_, ?_⟩
        · simp only [FrameF.rootsF, List.foldl_cons]
          rw [C1, hAevents]
          simp [removalEvents, FrameF.postF, List.map_append, List.append_assoc]
        · simp only [FrameF.rootsF, List.foldl_cons]
          rw [C2, hAframes, idsF_cons, eraseKeys_append]
          rfl
        · intro x hx hxp
          simp only [FrameF.refsF, List.mem_cons, List.mem_append, not_or] at hx
          obtain ⟨hxr, hxk, hxs⟩ := hx
          simp only [FrameF.rootsF, List.foldl_cons]
          rw [C3 x hxs hxp, hAheap x hxr hxk hxp]
        · simp only [FrameF.rootsF, List.foldl_cons]
          rw [C4, hAheapp]
          cases alookup st.heap p with
          | none => rfl
          | some pd =>
            show some (dropChildren sibs.rootsF _) = _
            rw [dropChildren_after_detach]
            rfl

/-- In the depth-first post-order of a forest with distinct references,
every child's event strictly precedes its parent's. -/
theorem postOrder_child_before_parent :
    ∀ (f : FrameF), f.refsF.Nodup →
      ∀ pr, pr ∈ f.parentChildF →
        idxOfRef f.postRefsF pr.2 < idxOfRef f.postRefsF pr.1 := by
  intro f
  induction f with
  | nil =>
    intro _ pr h
    cases h
  | cons r i kids sibs ihk ihs =>
    intro hnd pr hpr
    rw [show FrameF.refsF (FrameF.cons r i kids sibs) =
      r :: (kids.refsF ++ sibs.refsF) from rfl] at hnd
    simp only [List.nodup_cons, List.mem_append, not_or,
      List.nodup_append] at hnd
    obtain ⟨⟨hrk, hrs⟩, hkN, hsN, hdisj⟩ := hnd
    rw [postRefsF_cons]
    simp only [FrameF.parentChildF, List.mem_append, List.mem_map] at hpr
    rcases hpr with ⟨c, hc, hprc⟩ | hk | hs
    · cases hprc
      have hck : c ∈ kids.postRefsF :=
        (mem_postRefsF kids c).mpr (rootsF_subset_refsF kids c hc)
      have hrnotk : ¬ r ∈ kids.postRefsF :=
        fun hmem => hrk ((mem_postRefsF kids r).mp hmem)
      rw [idxOfRef_append_of_mem _ _ _ hck,
        idxOfRef_append_of_not_mem _ _ _ hrnotk]
      have hlt := idxOfRef_lt_length_of_mem _ _ hck
      have hzero : idxOfRef (r :: sibs.postRefsF) r = 0 := by simp [idxOfRef]
      omega
    · obtain ⟨h1, h2⟩ := parentChildF_mem_refsF kids pr hk
      have m1 : pr.1 ∈ kids.postRefsF := (mem_postRefsF _ _).mpr h1
      have m2 : pr.2 ∈ kids.postRefsF := (mem_postRefsF _ _).mpr h2
      rw [idxOfRef_append_of_mem _ _ _ m1, idxOfRef_append_of_mem _ _ _ m2]
      exact ihk hkN pr hk
    · obtain ⟨h1, h2⟩ := parentChildF_mem_refsF sibs pr hs
      have n1k : ¬ pr.1 ∈ kids.postRefsF :=
        fun hm => hdisj ((mem_postRefsF _ _).mp hm) h1
      have n2k : ¬ pr.2 ∈ kids.postRefsF :=
        fun hm => hdisj ((mem_postRefsF _ _).mp hm) h2
      have n1r : r ≠ pr.1 := fun he => hrs (he ▸ h1)
      have n2r : r ≠ pr.2 := fun he => hrs (he ▸ h2)
      rw [idxOfRef_append_of_not_mem _ _ _ n1k,
        idxOfRef_append_of_not_mem _ _ _ n2k]
      have e1 : idxOfRef (r :: sibs.postRefsF) pr.1 =
          idxOfRef sibs.postRefsF pr.1 + 1 := by simp [idxOfRef, n1r]
      have e2 : idxOfRef (r :: sibs.postRefsF) pr.2 =
          idxOfRef sibs.postRefsF pr.2 + 1 := by simp [idxOfRef, n2r]
      have hrec := ihs hsN pr hs
      omega

/-- Claim C2: delivering `frameDetached` for a tracked frame whose
subtree is the tree `cons r i kids nil` (N = `kids.sizeF` descendants)
emits exactly N+1 FrameDetached events — one per evicted frame, the
depth-first post-order of the subtree, every child's event before its
parent's — and afterwards `frame(id)` is none for each of the N+1 ids. -/
theorem frameDetached_postorder (fuel r : Nat) (i : String) (kids : FrameF)
    (st : FMState)
    (hshape : treeShape st.heap (FrameF.cons r i kids FrameF.nil) = true)
    (hnodup : (FrameF.cons r i kids FrameF.nil).refsF.Nodup)
    (hfuel : (FrameF.cons r i kids FrameF.nil).depthF ≤ fuel)
    (htracked : alookup st.frames i = some r) :
    (FrameManager.onFrameDetached fuel i st).events =
        st.events ++ removalEvents (FrameF.cons r i kids FrameF.nil) ∧
      (removalEvents (FrameF.cons r i kids FrameF.nil)).length =
        kids.sizeF + 1 ∧
      (∀ pr ∈ (FrameF.cons r i kids FrameF.nil).postF,
        alookup (FrameManager.onFrameDetached fuel i st).frames pr.2 = none) ∧
      (∀ pc ∈ (FrameF.cons r i kids FrameF.nil).parentChildF,
        idxOfRef (FrameF.cons r i kids FrameF.nil).postRefsF pc.2 <
          idxOfRef (FrameF.cons r i kids FrameF.nil).postRefsF pc.1) := by
  simp only [treeShape] at hshape
  cases hdr : alookup st.heap r with
  | none =>
    rw [hdr] at hshape
    exact absurd hshape (by simp)
  | some dr =>
    rw [hdr] at hshape
    simp only [Bool.and_eq_true, beq_iff_eq] at hshape
    obtain ⟨⟨hfid, hch⟩, hks⟩ := hshape
    have hnd := hnodup
    rw [show FrameF.refsF (FrameF.cons r i kids FrameF.nil) =
      r :: (kids.refsF ++ []) from rfl] at hnd
    simp only [List.append_nil, List.nodup_cons] at hnd
    obtain ⟨hrk, hkN⟩ := hnd
    have h1k : 1 + kids.depthF ≤ fuel := by
      have : FrameF.depthF (FrameF.cons r i kids FrameF.nil) =
          max (1 + kids.depthF) 0 := rfl
      rw [this] at hfuel
      omega
    cases fuel with
    | zero => omega
    | succ fuel₀ =>
      have hkd : kids.depthF ≤ fuel₀ := by omega
      have hknodup : (r :: kids.refsF).Nodup := List.nodup_cons.mpr ⟨hrk, hkN⟩
      obtain ⟨A1, A2, A3, A4⟩ := removeForest_spec kids fuel₀ r st hks hknodup hkd
      have hA4some : alookup
          (kids.rootsF.foldl
            (fun s c => removeFramesRecursively fuel₀ c s) st).heap r =
          some (dropChildren kids.rootsF dr) := by
        rw [A4, hdr]
        rfl
      obtain ⟨B1, B2, _, _⟩ := frameDetachStep_spec r
        (kids.rootsF.foldl (fun s c => removeFramesRecursively fuel₀ c s) st)
        (dropChildren kids.rootsF dr) hA4some
      have hfid2 := (frameDetachStep_coreAgrees r
        (kids.rootsF.foldl
          (fun s c => removeFramesRecursively fuel₀ c s) st)).2.2.2 r
      rw [hA4some] at hfid2
      obtain ⟨d2, hd2, hd2fid⟩ : ∃ d2,
          alookup (frameDetachStep r
            (kids.rootsF.foldl
              (fun s c => removeFramesRecursively fuel₀ c s) st)).heap r =
            some d2 ∧ d2.fid = i := by
        cases hh : alookup (frameDetachStep r
            (kids.rootsF.foldl
              (fun s c => removeFramesRecursively fuel₀ c s) st)).heap r with
        | none => rw [hh] at hfid2; cases hfid2
        | some d2 =>
          rw [hh] at hfid2
          refine ⟨d2, rfl, ?_⟩
          have hinj := Option.some.inj hfid2
          rw [hinj]
          show (dropChildren kids.rootsF dr).fid = i
          exact hfid
      have hstepA : removeFramesRecursively (Nat.succ fuel₀) r st =
          { frameDetachStep r
              (kids.rootsF.foldl
                (fun s c => removeFramesRecursively fuel₀ c s) st) with
            frames := aerase (frameDetachStep r
              (kids.rootsF.foldl
                (fun s c => removeFramesRecursively fuel₀ c s) st)).frames i,
            events := (frameDetachStep r
              (kids.rootsF.foldl
                (fun s c => removeFramesRecursively fuel₀ c s) st)).events ++
              [FMEvent.frameDetached r i] } := by
        rw [removeFramesRecursively_succ]
        simp only [hdr, hch, hd2, hd2fid, eraseStage]
      have hdet : FrameManager.onFrameDetached (Nat.succ fuel₀) i st =
          removeFramesRecursively (Nat.succ fuel₀) r st := by
        simp only [FrameManager.onFrameDetached, htracked]
      have hframes : (removeFramesRecursively (Nat.succ fuel₀) r st).frames =
          eraseKeys st.frames (kids.idsF ++ [i]) := by
        rw [hstepA]
        show aerase (frameDetachStep r _).frames i = _
        rw [B1, A2, eraseKeys_append]
        rfl
      refine ⟨?_, ?_, ?_, ?_⟩
      · rw [hdet, hstepA]
        show (frameDetachStep r _).events ++ [FMEvent.frameDetached r i] = _
        rw [B2, A1]
        simp [removalEvents, FrameF.postF, List.map_append, List.append_assoc]
      · simp only [removalEvents, List.length_map, postF_length]
        show FrameF.sizeF (FrameF.cons r i kids FrameF.nil) = kids.sizeF + 1
        simp [FrameF.sizeF]
        omega
      · intro pr hpr
        rw [hdet, hframes]
        apply alookup_eraseKeys_of_mem
        simp only [FrameF.postF, List.append_nil, List.mem_append,
          List.mem_cons] at hpr
        rcases hpr with hpr | hpr
        · have : pr.2 ∈ kids.idsF := by
            simp only [FrameF.idsF, List.mem_map]
            exact ⟨pr, hpr, rfl⟩
          simp [this]
        · rcases hpr with hpr | hpr
          · rw [hpr]
            simp
          · cases hpr
      · exact postOrder_child_before_parent _ hnodup

/-- Witness for C2: detaching frame "A" (3 descendants) in the four-frame
sample tree emits 4 events in post-order and evicts all four ids. -/
theorem frameDetached_postorder_witness :
    treeShape sampleTreeState.heap
        (FrameF.cons 0 "A" sampleKids FrameF.nil) = true ∧
      (FrameF.cons 0 "A" sampleKids FrameF.nil).refsF.Nodup ∧
      (FrameF.cons 0 "A" sampleKids FrameF.nil).depthF ≤ 3 ∧
      alookup sampleTreeState.frames "A" = some 0 ∧
      ((FrameManager.onFrameDetached 3 "A" sampleTreeState).events =
          sampleTreeState.events ++
            removalEvents (FrameF.cons 0 "A" sampleKids FrameF.nil) ∧
        (removalEvents (FrameF.cons 0 "A" sampleKids FrameF.nil)).length =
          sampleKids.sizeF + 1 ∧
        (∀ pr ∈ (FrameF.cons 0 "A" sampleKids FrameF.nil).postF,
          alookup (FrameManager.onFrameDetached 3 "A" sampleTreeState).frames
            pr.2 = none) ∧
        (∀ pc ∈ (FrameF.cons 0 "A" sampleKids FrameF.nil).parentChildF,
          idxOfRef (FrameF.cons 0 "A" sampleKids FrameF.nil).postRefsF pc.2 <
            idxOfRef (FrameF.cons 0 "A" sampleKids FrameF.nil).postRefsF pc.1)) :=
  ⟨by decide, by decide, by decide, by decide,
    frameDetached_postorder 3 0 "A" sampleKids sampleTreeState
      (by decide) (by decide) (by decide) (by decide)⟩

end SimpleChrome
